import Mathlib

/-!
Verification development for the goojs entity transform hierarchy
(`src/goo/entities/components/TransformComponent.js`).

The `TransformComponent` code (structure, attach/detach, update methods,
dirty/updated flags) is embedded faithfully from the source file.  The math
modules it imports (`goo/math/Transform`, `goo/math/Vector3`,
`goo/math/Matrix4x4`) and the propagation pass (`TransformSystem`) are not
part of the provided sources, so they are modelled from the specification,
as noted in the doc comments below.  All numeric state is over `ℚ`
(exact arithmetic standing in for IEEE doubles).
-/

namespace Goo

/-- Modelled from the spec: a 3-vector (`goo/math/Vector3` is not in src).
Components are exact rationals. -/
structure Vec3 where
  x : ℚ
  y : ℚ
  z : ℚ
deriving DecidableEq, Repr

namespace Vec3

/-- Zero vector. -/
def zero : Vec3 := ⟨0, 0, 0⟩

/-- All-ones vector (the identity scale). -/
def one : Vec3 := ⟨1, 1, 1⟩

/-- Componentwise addition. -/
def add (a b : Vec3) : Vec3 := ⟨a.x + b.x, a.y + b.y, a.z + b.z⟩

/-- Componentwise (Hadamard) product, used for composing scale vectors. -/
def hadamard (a b : Vec3) : Vec3 := ⟨a.x * b.x, a.y * b.y, a.z * b.z⟩

/-- Componentwise negation. -/
def neg (a : Vec3) : Vec3 := ⟨-a.x, -a.y, -a.z⟩

/-- Scalar multiple. -/
def smul (q : ℚ) (a : Vec3) : Vec3 := ⟨q * a.x, q * a.y, q * a.z⟩

/-- Componentwise multiplicative inverse (rational inverse; `0⁻¹ = 0`).
Used by the non-zero-scale-guarded transform inverse. -/
def cinv (a : Vec3) : Vec3 := ⟨a.x⁻¹, a.y⁻¹, a.z⁻¹⟩

/-- Uniform vector with all three components equal to `q`. -/
def uniform (q : ℚ) : Vec3 := ⟨q, q, q⟩

end Vec3

/-- Modelled from the spec: a 3×3 matrix (`goo/math/Matrix3x3` is not in
src); the spec's orientation representation ("rotation (3×3 matrix)"). -/
structure Mat3 where
  a00 : ℚ
  a01 : ℚ
  a02 : ℚ
  a10 : ℚ
  a11 : ℚ
  a12 : ℚ
  a20 : ℚ
  a21 : ℚ
  a22 : ℚ
deriving DecidableEq, Repr

namespace Mat3

/-- Identity 3×3 matrix. -/
def id : Mat3 := ⟨1, 0, 0, 0, 1, 0, 0, 0, 1⟩

/-- Matrix product. -/
def mul (a b : Mat3) : Mat3 :=
  ⟨a.a00 * b.a00 + a.a01 * b.a10 + a.a02 * b.a20,
   a.a00 * b.a01 + a.a01 * b.a11 + a.a02 * b.a21,
   a.a00 * b.a02 + a.a01 * b.a12 + a.a02 * b.a22,
   a.a10 * b.a00 + a.a11 * b.a10 + a.a12 * b.a20,
   a.a10 * b.a01 + a.a11 * b.a11 + a.a12 * b.a21,
   a.a10 * b.a02 + a.a11 * b.a12 + a.a12 * b.a22,
   a.a20 * b.a00 + a.a21 * b.a10 + a.a22 * b.a20,
   a.a20 * b.a01 + a.a21 * b.a11 + a.a22 * b.a21,
   a.a20 * b.a02 + a.a21 * b.a12 + a.a22 * b.a22⟩

/-- Matrix applied to a column vector. -/
def mulVec (a : Mat3) (v : Vec3) : Vec3 :=
  ⟨a.a00 * v.x + a.a01 * v.y + a.a02 * v.z,
   a.a10 * v.x + a.a11 * v.y + a.a12 * v.z,
   a.a20 * v.x + a.a21 * v.y + a.a22 * v.z⟩

/-- Diagonal matrix of a scale vector. -/
def diag (s : Vec3) : Mat3 := ⟨s.x, 0, 0, 0, s.y, 0, 0, 0, s.z⟩

/-- Scalar multiple of a matrix. -/
def smul (q : ℚ) (a : Mat3) : Mat3 :=
  ⟨q * a.a00, q * a.a01, q * a.a02,
   q * a.a10, q * a.a11, q * a.a12,
   q * a.a20, q * a.a21, q * a.a22⟩

/-- Determinant. -/
def det (a : Mat3) : ℚ :=
  a.a00 * (a.a11 * a.a22 - a.a12 * a.a21)
    - a.a01 * (a.a10 * a.a22 - a.a12 * a.a20)
    + a.a02 * (a.a10 * a.a21 - a.a11 * a.a20)

/-- Adjugate (transpose of the cofactor matrix). -/
def adj (a : Mat3) : Mat3 :=
  ⟨a.a11 * a.a22 - a.a12 * a.a21,
   a.a02 * a.a21 - a.a01 * a.a22,
   a.a01 * a.a12 - a.a02 * a.a11,
   a.a12 * a.a20 - a.a10 * a.a22,
   a.a00 * a.a22 - a.a02 * a.a20,
   a.a02 * a.a10 - a.a00 * a.a12,
   a.a10 * a.a21 - a.a11 * a.a20,
   a.a01 * a.a20 - a.a00 * a.a21,
   a.a00 * a.a11 - a.a01 * a.a10⟩

/-- Modelled from the spec: matrix inverse via the adjugate; a genuine
inverse whenever the determinant is non-zero (the spec's singular guard). -/
def inv (a : Mat3) : Mat3 := smul (det a)⁻¹ (adj a)

end Mat3

/-- Modelled from the spec: a 4×4 homogeneous matrix (`goo/math/Matrix4x4`
is not in src). -/
structure Mat4 where
  m00 : ℚ
  m01 : ℚ
  m02 : ℚ
  m03 : ℚ
  m10 : ℚ
  m11 : ℚ
  m12 : ℚ
  m13 : ℚ
  m20 : ℚ
  m21 : ℚ
  m22 : ℚ
  m23 : ℚ
  m30 : ℚ
  m31 : ℚ
  m32 : ℚ
  m33 : ℚ
deriving DecidableEq, Repr

namespace Mat4

/-- Identity 4×4 matrix. -/
def id : Mat4 := ⟨1, 0, 0, 0, 0, 1, 0, 0, 0, 0, 1, 0, 0, 0, 0, 1⟩

/-- Matrix product. -/
def mul (a b : Mat4) : Mat4 :=
  ⟨a.m00 * b.m00 + a.m01 * b.m10 + a.m02 * b.m20 + a.m03 * b.m30,
   a.m00 * b.m01 + a.m01 * b.m11 + a.m02 * b.m21 + a.m03 * b.m31,
   a.m00 * b.m02 + a.m01 * b.m12 + a.m02 * b.m22 + a.m03 * b.m32,
   a.m00 * b.m03 + a.m01 * b.m13 + a.m02 * b.m23 + a.m03 * b.m33,
   a.m10 * b.m00 + a.m11 * b.m10 + a.m12 * b.m20 + a.m13 * b.m30,
   a.m10 * b.m01 + a.m11 * b.m11 + a.m12 * b.m21 + a.m13 * b.m31,
   a.m10 * b.m02 + a.m11 * b.m12 + a.m12 * b.m22 + a.m13 * b.m32,
   a.m10 * b.m03 + a.m11 * b.m13 + a.m12 * b.m23 + a.m13 * b.m33,
   a.m20 * b.m00 + a.m21 * b.m10 + a.m22 * b.m20 + a.m23 * b.m30,
   a.m20 * b.m01 + a.m21 * b.m11 + a.m22 * b.m21 + a.m23 * b.m31,
   a.m20 * b.m02 + a.m21 * b.m12 + a.m22 * b.m22 + a.m23 * b.m32,
   a.m20 * b.m03 + a.m21 * b.m13 + a.m22 * b.m23 + a.m23 * b.m33,
   a.m30 * b.m00 + a.m31 * b.m10 + a.m32 * b.m20 + a.m33 * b.m30,
   a.m30 * b.m01 + a.m31 * b.m11 + a.m32 * b.m21 + a.m33 * b.m31,
   a.m30 * b.m02 + a.m31 * b.m12 + a.m32 * b.m22 + a.m33 * b.m32,
   a.m30 * b.m03 + a.m31 * b.m13 + a.m32 * b.m23 + a.m33 * b.m33⟩

/-- Transpose. -/
def transpose (a : Mat4) : Mat4 :=
  ⟨a.m00, a.m10, a.m20, a.m30,
   a.m01, a.m11, a.m21, a.m31,
   a.m02, a.m12, a.m22, a.m32,
   a.m03, a.m13, a.m23, a.m33⟩

/-- Determinant of the 3×3 matrix with the given entries (row major). -/
def det3 (b00 b01 b02 b10 b11 b12 b20 b21 b22 : ℚ) : ℚ :=
  b00 * (b11 * b22 - b12 * b21)
    - b01 * (b10 * b22 - b12 * b20)
    + b02 * (b10 * b21 - b11 * b20)

/-- Determinant (cofactor expansion along the first row). -/
def det (a : Mat4) : ℚ :=
  a.m00 * det3 a.m11 a.m12 a.m13 a.m21 a.m22 a.m23 a.m31 a.m32 a.m33
    - a.m01 * det3 a.m10 a.m12 a.m13 a.m20 a.m22 a.m23 a.m30 a.m32 a.m33
    + a.m02 * det3 a.m10 a.m11 a.m13 a.m20 a.m21 a.m23 a.m30 a.m31 a.m33
    - a.m03 * det3 a.m10 a.m11 a.m12 a.m20 a.m21 a.m22 a.m30 a.m31 a.m32

/-- Adjugate: entry `i j` is the `(j i)` cofactor. -/
def adj (a : Mat4) : Mat4 :=
  ⟨det3 a.m11 a.m12 a.m13 a.m21 a.m22 a.m23 a.m31 a.m32 a.m33,
   -det3 a.m01 a.m02 a.m03 a.m21 a.m22 a.m23 a.m31 a.m32 a.m33,
   det3 a.m01 a.m02 a.m03 a.m11 a.m12 a.m13 a.m31 a.m32 a.m33,
   -det3 a.m01 a.m02 a.m03 a.m11 a.m12 a.m13 a.m21 a.m22 a.m23,
   -det3 a.m10 a.m12 a.m13 a.m20 a.m22 a.m23 a.m30 a.m32 a.m33,
   det3 a.m00 a.m02 a.m03 a.m20 a.m22 a.m23 a.m30 a.m32 a.m33,
   -det3 a.m00 a.m02 a.m03 a.m10 a.m12 a.m13 a.m30 a.m32 a.m33,
   det3 a.m00 a.m02 a.m03 a.m10 a.m12 a.m13 a.m20 a.m22 a.m23,
   det3 a.m10 a.m11 a.m13 a.m20 a.m21 a.m23 a.m30 a.m31 a.m33,
   -det3 a.m00 a.m01 a.m03 a.m20 a.m21 a.m23 a.m30 a.m31 a.m33,
   det3 a.m00 a.m01 a.m03 a.m10 a.m11 a.m13 a.m30 a.m31 a.m33,
   -det3 a.m00 a.m01 a.m03 a.m10 a.m11 a.m13 a.m20 a.m21 a.m23,
   -det3 a.m10 a.m11 a.m12 a.m20 a.m21 a.m22 a.m30 a.m31 a.m32,
   det3 a.m00 a.m01 a.m02 a.m20 a.m21 a.m22 a.m30 a.m31 a.m32,
   -det3 a.m00 a.m01 a.m02 a.m10 a.m11 a.m12 a.m30 a.m31 a.m32,
   det3 a.m00 a.m01 a.m02 a.m10 a.m11 a.m12 a.m20 a.m21 a.m22⟩

/-- Scalar multiple. -/
def smul (q : ℚ) (a : Mat4) : Mat4 :=
  ⟨q * a.m00, q * a.m01, q * a.m02, q * a.m03,
   q * a.m10, q * a.m11, q * a.m12, q * a.m13,
   q * a.m20, q * a.m21, q * a.m22, q * a.m23,
   q * a.m30, q * a.m31, q * a.m32, q * a.m33⟩

/-- Modelled from the spec: `Matrix4x4.invert` (not in src), the general
4×4 inverse via the adjugate; a genuine inverse whenever the determinant is
non-zero. -/
def invert (a : Mat4) : Mat4 := smul (det a)⁻¹ (adj a)

/-- Affine 4×4 matrix from a 3×3 linear part and a translation column. -/
def affineOf (l : Mat3) (t : Vec3) : Mat4 :=
  ⟨l.a00, l.a01, l.a02, t.x,
   l.a10, l.a11, l.a12, t.y,
   l.a20, l.a21, l.a22, t.z,
   0, 0, 0, 1⟩

/-- Homogeneous matrix composed from translation, rotation and scale;
this is what `Transform.update` stores in the cached matrix
(translation ∘ rotation ∘ scale). -/
def trs (t : Vec3) (r : Mat3) (s : Vec3) : Mat4 :=
  affineOf (r.mul (Mat3.diag s)) t

/-- Translation column of a 4×4 matrix. -/
def colTrans (a : Mat4) : Vec3 := ⟨a.m03, a.m13, a.m23⟩

end Mat4

/-- Modelled from the spec: the `goo/math/Transform` value (not in src).
Attributes per spec §3: translation (3-vector), rotation (3×3 matrix),
scale (3-vector), derived 4×4 homogeneous matrix, derived normal matrix. -/
structure Transform where
  translation : Vec3
  rotation : Mat3
  scale : Vec3
  matrix : Mat4
  normalMatrix : Mat4
deriving DecidableEq, Repr

namespace Transform

/-- Identity transform: the constructor's initial value ("created with
identity values", spec §3). -/
def identity : Transform :=
  { translation := Vec3.zero
    rotation := Mat3.id
    scale := Vec3.one
    matrix := Mat4.id
    normalMatrix := Mat4.id }

/-- Modelled from the spec: `Transform.update` — "recomputes the cached 4×4
matrix from translation/rotation/scale. Pure, idempotent, no external
effects" (spec §4.1). -/
def update (t : Transform) : Transform :=
  { t with matrix := Mat4.trs t.translation t.rotation t.scale }

/-- Modelled from the spec: `Transform.multiply` storing into a recipient —
"compose(parentWorld, local): matrix product; no side effects beyond
writing the result" (spec §4.1).  The cached matrix becomes the matrix
product; translation is its translation column; rotation and scale compose
by matrix product and componentwise product respectively.  The recipient's
normal matrix is not written by multiply. -/
def multiplyInto (r a b : Transform) : Transform :=
  { r with
    matrix := a.matrix.mul b.matrix
    translation := Mat4.colTrans (a.matrix.mul b.matrix)
    rotation := a.rotation.mul b.rotation
    scale := a.scale.hadamard b.scale }

/-- Modelled from the spec: `Transform.invert` producing a fresh transform —
"fails (or is undefined) for non-invertible (singular) transforms — in
practice guarded by non-zero scale assumption" (spec §4.1).  For a
translation∘rotation∘scale transform with invertible rotation and non-zero
scale this is the genuine inverse. -/
def invert (t : Transform) : Transform :=
  let rinv := Mat3.inv t.rotation
  let sinv := Vec3.cinv t.scale
  let tinv := Vec3.neg (sinv.hadamard (rinv.mulVec t.translation))
  { translation := tinv
    rotation := rinv
    scale := sinv
    matrix := Mat4.trs tinv rinv sinv
    normalMatrix := Mat4.id }

/-- Modelled from the spec: `Transform.copy` — overwrite every attribute of
the recipient with the source's. -/
def copyOf (src : Transform) : Transform := src

end Transform

/-- One `TransformComponent` node of the scene graph
(TransformComponent.js constructor, lines 24–53): local transform, world
transform, parent back-reference, ordered child list, `_dirty` and
`_updated` flags.  Nodes are referenced by their index in the world's node
list. -/
structure Node where
  transform : Transform
  worldTransform : Transform
  parent : Option Nat
  children : List Nat
  dirty : Bool
  updated : Bool
deriving DecidableEq, Repr

/-- A freshly constructed component: identity transforms, no parent, no
children, `_dirty = true`, `_updated = false` (constructor lines 32–52). -/
def Node.fresh : Node :=
  { transform := Transform.identity
    worldTransform := Transform.identity
    parent := none
    children := []
    dirty := true
    updated := false }

/-- The object graph: the list of live nodes, plus a counter of
`console.warn` diagnostics emitted so far. -/
structure World where
  nodes : List Node
  warns : Nat
deriving DecidableEq, Repr

namespace World

/-- Node lookup by id (out-of-range ids yield a fresh default node; the
operations below are only meaningful for ids `< s.nodes.length`, matching
the JS where dereferencing a non-object crashes). -/
def lookup (s : World) (i : Nat) : Node := s.nodes.getD i Node.fresh

/-- Rewrite node `i` in place (no-op when `i` is out of range). -/
def modifyNode (s : World) (i : Nat) (f : Node → Node) : World :=
  { s with nodes := s.nodes.set i (f (s.lookup i)) }

/-- A world of `n` freshly constructed nodes. -/
def fresh (n : Nat) : World := { nodes := List.replicate n Node.fresh, warns := 0 }

/-- The `k`-th ancestor of node `i` (`anc s i 0 = i`; one step follows the
parent pointer). -/
def anc (s : World) (i : Nat) : Nat → Option Nat
  | 0 => some i
  | k + 1 =>
    match anc s i k with
    | some j => (s.lookup j).parent
    | none => none

/-- The cycle guard at the head of `attachChild` (lines 458–465): walk
`this`'s ancestor chain (starting at `this` itself) looking for the
candidate child.  The JS `while` loop terminates exactly when the parent
chain is finite; it is modelled with `s.nodes.length` steps of fuel, which
covers every acyclic chain over the world's nodes. -/
def guardB (s : World) (p c : Nat) : Bool :=
  (List.range (s.nodes.length + 1)).any fun k => decide (anc s p k = some c)

/-- Parent pointer of node `j` (structural projection). -/
def pmap (s : World) (j : Nat) : Option Nat := (s.lookup j).parent

/-- Child list of node `j` (structural projection). -/
def cmap (s : World) (j : Nat) : List Nat := (s.lookup j).children

/-- Dirty/updated flag pair of node `j`. -/
def fmap (s : World) (j : Nat) : Bool × Bool := ((s.lookup j).dirty, (s.lookup j).updated)

end World

/-- The normal-matrix step at the tail of `updateWorldTransform`
(lines 522–529): if the world scale is non-uniform (`x ≠ y or x ≠ z`),
the normal matrix becomes `transpose(invert(world matrix))`; otherwise it
becomes a copy of the world matrix. -/
def setNormal (w : Transform) : Transform :=
  if w.scale.x ≠ w.scale.y ∨ w.scale.x ≠ w.scale.z then
    { w with normalMatrix := (Mat4.invert w.matrix).transpose }
  else
    { w with normalMatrix := w.matrix }

/-- The pure core of `updateWorldTransform` (lines 515–529): given the
parent's world transform (when a parent exists), the node's local
transform, and the node's previous world transform (the recipient object),
produce the new world transform: `multiply(parent.world, local)` with a
parent, `copy(local)` without, then the normal-matrix branch. -/
def applyUWT (pw : Option Transform) (l old : Transform) : Transform :=
  match pw with
  | some w => setNormal (Transform.multiplyInto old w l)
  | none => setNormal (Transform.copyOf l)

namespace World

/-- `TransformComponent.prototype.updateTransform` (lines 508–510):
recompute the local cached matrix. -/
def updateTransformOp (s : World) (i : Nat) : World :=
  s.modifyNode i fun n => { n with transform := n.transform.update }

/-- `TransformComponent.prototype.updateWorldTransform` (lines 515–533):
recompute the world transform from the (stored) parent world transform and
the local transform, recompute the normal matrix, then clear `_dirty` and
set `_updated`. -/
def updateWorldTransformOp (s : World) (i : Nat) : World :=
  s.modifyNode i fun n =>
    let pw := n.parent.map fun p => (s.lookup p).worldTransform
    { n with
      worldTransform := applyUWT pw n.transform n.worldTransform
      dirty := false
      updated := true }

/-- `TransformComponent.prototype.detachChild` (lines 488–503): reject
self-detachment with a warning; with `keepTransform` overwrite the child's
local transform with its (last-known) world transform; then, if the child
is actually a member of the child list, clear its parent pointer and splice
it out (first occurrence); otherwise leave the structure untouched. -/
def detachChild (s : World) (p c : Nat) (keepTransform : Bool) : World :=
  if c = p then { s with warns := s.warns + 1 }
  else
    let s1 :=
      if keepTransform then
        s.modifyNode c fun n => { n with transform := Transform.copyOf n.worldTransform }
      else s
    if (s1.lookup p).children.contains c then
      let s2 := s1.modifyNode c fun n => { n with parent := none }
      s2.modifyNode p fun n => { n with children := n.children.erase c }
    else s1

/-- The re-parenting prologue of `attachChild` (lines 466–468): if the
candidate child currently has a parent, it is first detached from it (with
`keepTransform` unset). -/
def attachPrep (s : World) (c : Nat) : World :=
  match (s.lookup c).parent with
  | some q => s.detachChild q c false
  | none => s

/-- The `keepTransform` stage of `attachChild` (lines 470–475): update the
child's and `this`'s local matrices, recompute `this`'s world transform,
and overwrite the child's local transform with
`multiply(invert(this.worldTransform), child.transform)`.  With the flag
unset this stage does nothing. -/
def attachKeepStage (s : World) (p c : Nat) (keepTransform : Bool) : World :=
  if keepTransform then
    let s2a := (s.attachPrep c).updateTransformOp c
    let s2b := s2a.updateTransformOp p
    let s2c := s2b.updateWorldTransformOp p
    let inv := Transform.invert (s2c.lookup p).worldTransform
    s2c.modifyNode c fun n =>
      { n with transform := Transform.multiplyInto n.transform inv n.transform }
  else s.attachPrep c

/-- Lines 457–479 continued: after the guard and the prologue, the
`keepTransform` stage (lines 470–475, `attachKeepStage`) runs, and then the
child's parent pointer is set to `this` and the child is appended to
`this`'s child list (lines 477–478). -/
def attachChild (s : World) (p c : Nat) (keepTransform : Bool) : World :=
  if s.guardB p c then { s with warns := s.warns + 1 }
  else
    ((s.attachKeepStage p c keepTransform).modifyNode c
        fun n => { n with parent := some p }).modifyNode p
      fun n => { n with children := n.children ++ [c] }

end World

/-- The world transform node `i` holds after a propagation pass over the
state `s`, computed along the parent chain with the given fuel.
Modelled from the spec (§4.3, the propagation pass itself —
`TransformSystem` — is not in src): the pass recomputes local matrices
(`updateTransform`) and then world transforms in strict parent-before-child
order, so each node's world transform is `updateWorldTransform` applied to
its parent's already-recomputed world transform and its updated local
transform.  That top-down pass is modelled denotationally by recursion on
the parent chain. -/
def World.worldAfter (s : World) : Nat → Nat → Transform
  | 0, i => (s.lookup i).worldTransform
  | f + 1, i =>
    let n := s.lookup i
    match n.parent with
    | none => applyUWT none n.transform.update n.worldTransform
    | some p => applyUWT (some (s.worldAfter f p)) n.transform.update n.worldTransform

/-- One full propagation pass (claims C1/C7: "updateTransform then
updateWorldTransform root-to-leaf"): every node's local matrix is
recomputed and its world transform becomes `worldAfter`; `_dirty` is
cleared and `_updated` set on every visited node (lines 531–532). -/
def World.propagate (s : World) : World :=
  { s with
    nodes := (List.range s.nodes.length).map fun i =>
      let n := s.lookup i
      { n with
        transform := n.transform.update
        worldTransform := s.worldAfter s.nodes.length i
        dirty := false
        updated := true } }

/-- Argument shapes accepted by the vector-valued mutators (spec §4.1:
"three scalars, a 3-vector, or an array of 3"); `Vector3.set` and the
Euler-angle readers normalise all three to the same three components. -/
inductive SetArg where
  | scalars (x y z : ℚ)
  | vec (v : Vec3)
  | arr (x y z : ℚ)
deriving DecidableEq, Repr

/-- The 3-vector denoted by an argument shape. -/
def SetArg.toVec : SetArg → Vec3
  | .scalars x y z => ⟨x, y, z⟩
  | .vec v => v
  | .arr x y z => ⟨x, y, z⟩

/-- Modelled from the spec: the orientation helpers of the missing math
modules (`Matrix3x3.fromAngles`/`toAngles`, `Transform.lookAt`), abstracted
as an arbitrary interpretation; no claim depends on their numeric values. -/
structure RotModel where
  fromAngles : ℚ → ℚ → ℚ → Mat3
  toAngles : Mat3 → Vec3
  lookAtRot : Vec3 → Option Vec3 → Mat3

/-- Argument shapes accepted by `lookAt` (lines 387–403): three scalars, or
a position (vector or array) with an optional up vector (vector or array). -/
inductive LookAtArg where
  | scalars (x y z : ℚ)
  | vecPos (pos : Vec3) (up : Option Vec3)
  | arrPos (x y z : ℚ) (up : Option Vec3)
deriving Repr

/-- Target position denoted by a `lookAt` argument. -/
def LookAtArg.pos : LookAtArg → Vec3
  | .scalars x y z => ⟨x, y, z⟩
  | .vecPos p _ => p
  | .arrPos x y z _ => ⟨x, y, z⟩

/-- Up vector denoted by a `lookAt` argument (none for the scalar form). -/
def LookAtArg.up : LookAtArg → Option Vec3
  | .scalars _ _ _ => none
  | .vecPos _ u => u
  | .arrPos _ _ _ u => u

namespace World

/-- `setTranslation` (lines 249–253): overwrite the local translation and
set `_dirty`. -/
def setTranslationOp (s : World) (i : Nat) (a : SetArg) : World :=
  s.modifyNode i fun n =>
    { n with transform := { n.transform with translation := a.toVec }, dirty := true }

/-- `setScale` (lines 279–283): overwrite the local scale and set `_dirty`. -/
def setScaleOp (s : World) (i : Nat) (a : SetArg) : World :=
  s.modifyNode i fun n =>
    { n with transform := { n.transform with scale := a.toVec }, dirty := true }

/-- `addTranslation` (lines 296–304): add to the local translation and set
`_dirty`. -/
def addTranslationOp (s : World) (i : Nat) (a : SetArg) : World :=
  s.modifyNode i fun n =>
    { n with
      transform := { n.transform with translation := n.transform.translation.add a.toVec }
      dirty := true }

/-- `setRotation` (lines 363–377): overwrite the local rotation from Euler
angles and set `_dirty`. -/
def setRotationOp (m : RotModel) (s : World) (i : Nat) (a : SetArg) : World :=
  s.modifyNode i fun n =>
    { n with
      transform := { n.transform with rotation := m.fromAngles a.toVec.x a.toVec.y a.toVec.z }
      dirty := true }

/-- `addRotation` (lines 335–350): read the current Euler angles, add the
argument, rebuild the rotation, and set `_dirty`. -/
def addRotationOp (m : RotModel) (s : World) (i : Nat) (a : SetArg) : World :=
  s.modifyNode i fun n =>
    let cur := m.toAngles n.transform.rotation
    { n with
      transform :=
        { n.transform with
          rotation := m.fromAngles (cur.x + a.toVec.x) (cur.y + a.toVec.y) (cur.z + a.toVec.z) }
      dirty := true }

/-- `lookAt` (lines 387–403): reorient the local rotation towards the
target and set `_dirty`. -/
def lookAtOp (m : RotModel) (s : World) (i : Nat) (a : LookAtArg) : World :=
  s.modifyNode i fun n =>
    { n with
      transform := { n.transform with rotation := m.lookAtRot a.pos a.up }
      dirty := true }

end World

/-- One hierarchy-mutating operation (claim C2 ranges over finite sequences
of these). -/
inductive Op where
  | attach (p c : Nat) (keepTransform : Bool)
  | detach (p c : Nat) (keepTransform : Bool)
deriving DecidableEq, Repr

/-- Apply one operation.  Operations address existing nodes (the JS crashes
on non-objects, so sequences only ever name live components); calls naming
a non-existent node are ignored. -/
def World.step (s : World) : Op → World
  | .attach p c keep =>
    if p < s.nodes.length ∧ c < s.nodes.length then s.attachChild p c keep else s
  | .detach p c keep =>
    if p < s.nodes.length ∧ c < s.nodes.length then s.detachChild p c keep else s

/-- Run a finite sequence of attach/detach operations. -/
def World.run (s : World) (ops : List Op) : World := ops.foldl World.step s

/-- A three-node chain `0 → 1 → 2` (node 0 is the root, node 2 the leaf),
all transforms at their identity defaults. -/
def chainWorld : World :=
  { nodes :=
      [ { Node.fresh with children := [1] },
        { Node.fresh with parent := some 0, children := [2] },
        { Node.fresh with parent := some 1 } ]
    warns := 0 }

/-- Two unrelated nodes; node 1 carries a local translation that its
(identity) world transform does not reflect. -/
def looseWorld : World :=
  { nodes :=
      [ Node.fresh,
        { Node.fresh with
            transform := { Transform.identity with translation := ⟨1, 0, 0⟩ } } ]
    warns := 0 }

/-- The structural well-formedness invariant of the scene graph (spec §3,
invariants (a)–(c)): parent pointers and child lists are mutually
consistent, child lists are duplicate-free and name live nodes, and the
parent relation is acyclic. -/
structure Wf (s : World) : Prop where
  parentConsistent : ∀ i, i < s.nodes.length → ∀ p, s.pmap i = some p →
    p < s.nodes.length ∧ i ∈ s.cmap p
  childConsistent : ∀ p, p < s.nodes.length → ∀ i ∈ s.cmap p,
    i < s.nodes.length ∧ s.pmap i = some p
  childNodup : ∀ p, p < s.nodes.length → (s.cmap p).Nodup
  noCycle : ∀ i, i < s.nodes.length → ∀ k, 1 ≤ k → k ≤ s.nodes.length →
    s.anc i k ≠ some i

/-- The settled world transform of a parentless node with identity local
transform: exactly what a propagation pass stores for it, with every
attribute written out literally. -/
def settledIdWorld : Transform :=
  { translation := Vec3.zero
    rotation := Mat3.id
    scale := Vec3.one
    matrix := Mat4.trs Vec3.zero Mat3.id Vec3.one
    normalMatrix := Mat4.trs Vec3.zero Mat3.id Vec3.one }

/-- The settled world transform of a pose translated one unit along x
(identity rotation and scale). -/
def settledTxWorld : Transform :=
  { translation := ⟨1, 0, 0⟩
    rotation := Mat3.id
    scale := Vec3.one
    matrix := Mat4.trs ⟨1, 0, 0⟩ Mat3.id Vec3.one
    normalMatrix := Mat4.trs ⟨1, 0, 0⟩ Mat3.id Vec3.one }

/-- Two parentless nodes with identity local transforms whose stored world
transforms are the settled ones. -/
def pairWorld : World :=
  { nodes :=
      [ { Node.fresh with worldTransform := settledIdWorld },
        { Node.fresh with worldTransform := settledIdWorld } ]
    warns := 0 }

/-- A parent/child pair `0 → 1` with identity local transforms, both
carrying the settled world transforms a propagation pass would store. -/
def settledChainWorld : World :=
  { nodes :=
      [ { Node.fresh with children := [1], worldTransform := settledIdWorld },
        { Node.fresh with parent := some 0, worldTransform := settledIdWorld } ]
    warns := 0 }

/-- A settled three-node scene: node 0 (`Q`) is a root translated one unit
along x with node 1 (`C`) as its only child; `C`'s local transform is the
identity, so its settled world pose carries `Q`'s translation; node 2
(`P`) is a settled identity root. -/
def cexWorld : World :=
  { nodes :=
      [ { Node.fresh with
            transform := { Transform.identity with translation := ⟨1, 0, 0⟩ }
            worldTransform := settledTxWorld
            children := [1]
            dirty := false
            updated := true },
        { Node.fresh with
            parent := some 0
            worldTransform := settledTxWorld
            dirty := false
            updated := true },
        { Node.fresh with
            worldTransform := settledIdWorld
            dirty := false
            updated := true } ]
    warns := 0 }

namespace Vec3

theorem hadamard_uniform (q : ℚ) (v : Vec3) : (uniform q).hadamard v = smul q v := rfl

theorem cinv_uniform (q : ℚ) : cinv (uniform q) = uniform q⁻¹ := rfl

theorem smul_smul (p q : ℚ) (v : Vec3) : smul p (smul q v) = smul (p * q) v := by
  simp only [smul, mk.injEq]
  refine ⟨by ring, by ring, by ring⟩

theorem one_smul (v : Vec3) : smul 1 v = v := by
  simp only [smul, one_mul]

theorem smul_add (q : ℚ) (a b : Vec3) : smul q (a.add b) = (smul q a).add (smul q b) := by
  simp only [smul, add, mk.injEq]
  refine ⟨by ring, by ring, by ring⟩

theorem smul_neg (q : ℚ) (a : Vec3) : smul q (neg a) = neg (smul q a) := by
  simp only [smul, neg, mk.injEq]
  refine ⟨by ring, by ring, by ring⟩

theorem add_neg_cancel_left (a b : Vec3) : a.add ((neg a).add b) = b := by
  cases a
  cases b
  simp only [add, neg, mk.injEq]
  refine ⟨by ring, by ring, by ring⟩

end Vec3

namespace Mat3

theorem mul_assoc3 (a b c : Mat3) : (a.mul b).mul c = a.mul (b.mul c) := by
  simp only [mul, mk.injEq]
  refine ⟨?_, ?_, ?_, ?_, ?_, ?_, ?_, ?_, ?_⟩ <;> ring

theorem mul_id3 (a : Mat3) : a.mul id = a := by
  cases a
  simp only [mul, id, mk.injEq]
  refine ⟨?_, ?_, ?_, ?_, ?_, ?_, ?_, ?_, ?_⟩ <;> ring

theorem id_mul3 (a : Mat3) : id.mul a = a := by
  cases a
  simp only [mul, id, mk.injEq]
  refine ⟨?_, ?_, ?_, ?_, ?_, ?_, ?_, ?_, ?_⟩ <;> ring

theorem mul_adj (a : Mat3) : a.mul a.adj = smul a.det id := by
  simp only [mul, adj, smul, det, id, mk.injEq]
  refine ⟨?_, ?_, ?_, ?_, ?_, ?_, ?_, ?_, ?_⟩ <;> ring

theorem mul_smul3 (q : ℚ) (a b : Mat3) : a.mul (smul q b) = smul q (a.mul b) := by
  simp only [mul, smul, mk.injEq]
  refine ⟨?_, ?_, ?_, ?_, ?_, ?_, ?_, ?_, ?_⟩ <;> ring

theorem smul_mul3 (q : ℚ) (a b : Mat3) : (smul q a).mul b = smul q (a.mul b) := by
  simp only [mul, smul, mk.injEq]
  refine ⟨?_, ?_, ?_, ?_, ?_, ?_, ?_, ?_, ?_⟩ <;> ring

theorem smul_smul3 (p q : ℚ) (a : Mat3) : smul p (smul q a) = smul (p * q) a := by
  simp only [smul, mk.injEq]
  refine ⟨?_, ?_, ?_, ?_, ?_, ?_, ?_, ?_, ?_⟩ <;> ring

theorem one_smul3 (a : Mat3) : smul 1 a = a := by
  simp only [smul, one_mul]

theorem mul_inv_self {a : Mat3} (h : a.det ≠ 0) : a.mul (inv a) = id := by
  rw [inv, mul_smul3, mul_adj, smul_smul3, inv_mul_cancel₀ h, one_smul3]

theorem diag_uniform (q : ℚ) : diag (Vec3.uniform q) = smul q id := by
  simp only [diag, Vec3.uniform, smul, id, mk.injEq]
  refine ⟨?_, ?_, ?_, ?_, ?_, ?_, ?_, ?_, ?_⟩ <;> ring

theorem diag_smul (q : ℚ) (v : Vec3) : diag (Vec3.smul q v) = smul q (diag v) := by
  simp only [diag, Vec3.smul, smul, mk.injEq]
  refine ⟨?_, ?_, ?_, ?_, ?_, ?_, ?_, ?_, ?_⟩ <;> ring

theorem mulVec_mulVec (a b : Mat3) (v : Vec3) :
    a.mulVec (b.mulVec v) = (a.mul b).mulVec v := by
  simp only [mulVec, mul, Vec3.mk.injEq]
  refine ⟨by ring, by ring, by ring⟩

theorem id_mulVec (v : Vec3) : id.mulVec v = v := by
  cases v
  simp only [mulVec, id, Vec3.mk.injEq]
  refine ⟨by ring, by ring, by ring⟩

theorem smul_mulVec (q : ℚ) (a : Mat3) (v : Vec3) :
    (smul q a).mulVec v = Vec3.smul q (a.mulVec v) := by
  simp only [mulVec, smul, Vec3.smul, Vec3.mk.injEq]
  refine ⟨by ring, by ring, by ring⟩

theorem mulVec_add (a : Mat3) (u v : Vec3) :
    a.mulVec (u.add v) = (a.mulVec u).add (a.mulVec v) := by
  simp only [mulVec, Vec3.add, Vec3.mk.injEq]
  refine ⟨by ring, by ring, by ring⟩

theorem mulVec_neg (a : Mat3) (v : Vec3) : a.mulVec (Vec3.neg v) = Vec3.neg (a.mulVec v) := by
  simp only [mulVec, Vec3.neg, Vec3.mk.injEq]
  refine ⟨by ring, by ring, by ring⟩

theorem mulVec_smul (q : ℚ) (a : Mat3) (v : Vec3) :
    a.mulVec (Vec3.smul q v) = Vec3.smul q (a.mulVec v) := by
  simp only [mulVec, Vec3.smul, Vec3.mk.injEq]
  refine ⟨by ring, by ring, by ring⟩

end Mat3

namespace Mat4

theorem affine_mul_affine (l1 l2 : Mat3) (t1 t2 : Vec3) :
    (affineOf l1 t1).mul (affineOf l2 t2) =
      affineOf (l1.mul l2) (t1.add (l1.mulVec t2)) := by
  simp only [affineOf, mul, Mat3.mul, Mat3.mulVec, Vec3.add, mk.injEq]
  refine ⟨?_, ?_, ?_, ?_, ?_, ?_, ?_, ?_, ?_, ?_, ?_, ?_, ?_, ?_, ?_, ?_⟩ <;> ring

theorem colTrans_affine (l : Mat3) (t : Vec3) : colTrans (affineOf l t) = t := rfl

theorem colTrans_trs (t : Vec3) (r : Mat3) (s : Vec3) : colTrans (trs t r s) = t := rfl

end Mat4

namespace World

theorem length_modifyNode (s : World) (j : Nat) (f : Node → Node) :
    (s.modifyNode j f).nodes.length = s.nodes.length := by
  simp [modifyNode]

theorem lookup_modifyNode_self {s : World} {j : Nat} (h : j < s.nodes.length)
    (f : Node → Node) : (s.modifyNode j f).lookup j = f (s.lookup j) := by
  simp [modifyNode, lookup, List.getD_eq_getElem?_getD, List.getElem?_set_self h]

theorem lookup_modifyNode_ne {s : World} {i j : Nat} (h : i ≠ j) (f : Node → Node) :
    (s.modifyNode j f).lookup i = s.lookup i := by
  simp [modifyNode, lookup, List.getD_eq_getElem?_getD, List.getElem?_set_ne (Ne.symm h)]

theorem modifyNode_oob {s : World} {j : Nat} (h : s.nodes.length ≤ j) (f : Node → Node) :
    s.modifyNode j f = s := by
  simp [modifyNode, List.set_eq_of_length_le h]

theorem lookup_oob {s : World} {i : Nat} (h : s.nodes.length ≤ i) :
    s.lookup i = Node.fresh := by
  simp [lookup, List.getD_eq_getElem?_getD, List.getElem?_eq_none h]

theorem lookup_warnBump (s : World) (k i : Nat) :
    World.lookup { s with warns := k } i = s.lookup i := rfl

theorem lookup_fresh (n i : Nat) : (fresh n).lookup i = Node.fresh := by
  unfold fresh lookup
  rcases lt_or_le i n with h | h
  · simp [List.getD_eq_getElem?_getD, List.getElem?_replicate, h]
  · simp [List.getD_eq_getElem?_getD, List.getElem?_replicate, Nat.not_lt.mpr h]

theorem length_fresh (n : Nat) : (fresh n).nodes.length = n := by
  simp [fresh]

theorem lookup_propagate {s : World} {i : Nat} (h : i < s.nodes.length) :
    (s.propagate).lookup i =
      { s.lookup i with
        transform := (s.lookup i).transform.update
        worldTransform := s.worldAfter s.nodes.length i
        dirty := false
        updated := true } := by
  simp [propagate, lookup, List.getD_eq_getElem?_getD, List.getElem?_map,
    List.getElem?_range h]

theorem length_propagate (s : World) : (s.propagate).nodes.length = s.nodes.length := by
  simp [propagate]

theorem pmap_modifyNode {f : Node → Node} (hf : ∀ n, (f n).parent = n.parent)
    (s : World) (j i : Nat) : pmap (s.modifyNode j f) i = pmap s i := by
  rcases lt_or_le j s.nodes.length with hj | hj
  · rcases eq_or_ne i j with rfl | hne
    · rw [pmap, lookup_modifyNode_self hj, hf]; rfl
    · rw [pmap, lookup_modifyNode_ne hne]; rfl
  · rw [modifyNode_oob hj]

theorem cmap_modifyNode {f : Node → Node} (hf : ∀ n, (f n).children = n.children)
    (s : World) (j i : Nat) : cmap (s.modifyNode j f) i = cmap s i := by
  rcases lt_or_le j s.nodes.length with hj | hj
  · rcases eq_or_ne i j with rfl | hne
    · rw [cmap, lookup_modifyNode_self hj, hf]; rfl
    · rw [cmap, lookup_modifyNode_ne hne]; rfl
  · rw [modifyNode_oob hj]

theorem fmap_modifyNode {f : Node → Node}
    (hf : ∀ n, (f n).dirty = n.dirty ∧ (f n).updated = n.updated)
    (s : World) (j i : Nat) : fmap (s.modifyNode j f) i = fmap s i := by
  rcases lt_or_le j s.nodes.length with hj | hj
  · rcases eq_or_ne i j with rfl | hne
    · rw [fmap, lookup_modifyNode_self hj]
      rw [(hf (s.lookup i)).1, (hf (s.lookup i)).2]; rfl
    · rw [fmap, lookup_modifyNode_ne hne]; rfl
  · rw [modifyNode_oob hj]

theorem pmap_modifyTransform (s : World) (j i : Nat) (g : Node → Transform) :
    pmap (s.modifyNode j fun n => { n with transform := g n }) i = pmap s i :=
  pmap_modifyNode (by intro n; rfl) s j i

theorem cmap_modifyTransform (s : World) (j i : Nat) (g : Node → Transform) :
    cmap (s.modifyNode j fun n => { n with transform := g n }) i = cmap s i :=
  cmap_modifyNode (by intro n; rfl) s j i

theorem fmap_modifyTransform (s : World) (j i : Nat) (g : Node → Transform) :
    fmap (s.modifyNode j fun n => { n with transform := g n }) i = fmap s i :=
  fmap_modifyNode (by intro n; exact ⟨rfl, rfl⟩) s j i

theorem pmap_modifyTransformDirty (s : World) (j i : Nat) (g : Node → Transform) :
    pmap (s.modifyNode j fun n => { n with transform := g n, dirty := true }) i = pmap s i :=
  pmap_modifyNode (by intro n; rfl) s j i

theorem cmap_modifyTransformDirty (s : World) (j i : Nat) (g : Node → Transform) :
    cmap (s.modifyNode j fun n => { n with transform := g n, dirty := true }) i = cmap s i :=
  cmap_modifyNode (by intro n; rfl) s j i

theorem pmap_modifyWorldFlags (s : World) (j i : Nat) (g : Node → Transform) :
    pmap (s.modifyNode j fun n =>
      { n with worldTransform := g n, dirty := false, updated := true }) i = pmap s i :=
  pmap_modifyNode (by intro n; rfl) s j i

theorem cmap_modifyWorldFlags (s : World) (j i : Nat) (g : Node → Transform) :
    cmap (s.modifyNode j fun n =>
      { n with worldTransform := g n, dirty := false, updated := true }) i = cmap s i :=
  cmap_modifyNode (by intro n; rfl) s j i

theorem pmap_modifyChildren (s : World) (j i : Nat) (g : Node → List Nat) :
    pmap (s.modifyNode j fun n => { n with children := g n }) i = pmap s i :=
  pmap_modifyNode (by intro n; rfl) s j i

theorem fmap_modifyChildren (s : World) (j i : Nat) (g : Node → List Nat) :
    fmap (s.modifyNode j fun n => { n with children := g n }) i = fmap s i :=
  fmap_modifyNode (by intro n; exact ⟨rfl, rfl⟩) s j i

theorem cmap_modifyParent (s : World) (j i : Nat) (v : Option Nat) :
    cmap (s.modifyNode j fun n => { n with parent := v }) i = cmap s i :=
  cmap_modifyNode (by intro n; rfl) s j i

theorem fmap_modifyParent (s : World) (j i : Nat) (v : Option Nat) :
    fmap (s.modifyNode j fun n => { n with parent := v }) i = fmap s i :=
  fmap_modifyNode (by intro n; exact ⟨rfl, rfl⟩) s j i

theorem pmap_updateTransformOp (s : World) (j i : Nat) :
    pmap (s.updateTransformOp j) i = pmap s i := by
  unfold updateTransformOp
  apply pmap_modifyNode
  intro n
  rfl

theorem cmap_updateTransformOp (s : World) (j i : Nat) :
    cmap (s.updateTransformOp j) i = cmap s i := by
  unfold updateTransformOp
  apply cmap_modifyNode
  intro n
  rfl

theorem fmap_updateTransformOp (s : World) (j i : Nat) :
    fmap (s.updateTransformOp j) i = fmap s i := by
  unfold updateTransformOp
  apply fmap_modifyNode
  intro n
  exact ⟨rfl, rfl⟩

theorem pmap_updateWorldTransformOp (s : World) (j i : Nat) :
    pmap (s.updateWorldTransformOp j) i = pmap s i := by
  unfold updateWorldTransformOp
  apply pmap_modifyNode
  intro n
  rfl

theorem cmap_updateWorldTransformOp (s : World) (j i : Nat) :
    cmap (s.updateWorldTransformOp j) i = cmap s i := by
  unfold updateWorldTransformOp
  apply cmap_modifyNode
  intro n
  rfl

theorem length_updateTransformOp (s : World) (j : Nat) :
    (s.updateTransformOp j).nodes.length = s.nodes.length :=
  length_modifyNode s j _

theorem length_updateWorldTransformOp (s : World) (j : Nat) :
    (s.updateWorldTransformOp j).nodes.length = s.nodes.length :=
  length_modifyNode s j _

theorem anc_succ (s : World) (i k : Nat) :
    anc s i (k + 1) = (anc s i k).bind fun j => (s.lookup j).parent := by
  cases h : anc s i k with
  | none => simp [anc, h]
  | some j => simp [anc, h]

theorem anc_congr {s t : World} (h : ∀ j, pmap t j = pmap s j) (i k : Nat) :
    anc t i k = anc s i k := by
  induction k with
  | zero => rfl
  | succ k ih =>
    rw [anc_succ, anc_succ, ih]
    cases anc s i k with
    | none => rfl
    | some j => exact h j

theorem anc_add (s : World) (i m n : Nat) :
    anc s i (m + n) = (anc s i m).bind fun j => anc s j n := by
  induction n with
  | zero =>
    rw [Nat.add_zero]
    cases anc s i m <;> rfl
  | succ n ih =>
    rw [← Nat.add_assoc, anc_succ, ih]
    cases anc s i m with
    | none => rfl
    | some j =>
      show ((s.anc j n).bind fun j2 => (s.lookup j2).parent) = s.anc j (n + 1)
      rw [anc_succ]

theorem anc_congr_avoid {s t : World} {c : Nat}
    (hpar : ∀ j, j ≠ c → pmap t j = pmap s j) {i : Nat} :
    ∀ {k : Nat}, (∀ m, m < k → anc t i m ≠ some c) → anc t i k = anc s i k := by
  intro k
  induction k with
  | zero => intro _; rfl
  | succ k ih =>
    intro h
    have hik : anc t i k = anc s i k := ih fun m hm => h m (Nat.lt_succ_of_lt hm)
    rw [anc_succ, anc_succ, hik]
    cases hv : anc s i k with
    | none => rfl
    | some j =>
      have hj : j ≠ c := fun hjc => h k (Nat.lt_succ_self k) (by rw [hik, hv, hjc])
      exact hpar j hj

theorem guardB_iff (s : World) (p c : Nat) :
    s.guardB p c = true ↔ ∃ k, k ≤ s.nodes.length ∧ anc s p k = some c := by
  unfold guardB
  rw [List.any_eq_true]
  constructor
  · rintro ⟨k, hk, hc⟩
    exact ⟨k, Nat.lt_succ_iff.mp (List.mem_range.mp hk), of_decide_eq_true hc⟩
  · rintro ⟨k, hk, hc⟩
    exact ⟨k, List.mem_range.mpr (Nat.lt_succ_iff.mpr hk), decide_eq_true hc⟩

theorem guardB_false_iff (s : World) (p c : Nat) :
    s.guardB p c = false ↔ ∀ k, k ≤ s.nodes.length → anc s p k ≠ some c := by
  rw [← Bool.not_eq_true, guardB_iff]
  push_neg
  rfl

end World

/-- A world of freshly constructed nodes is well-formed. -/
theorem wf_fresh (n : Nat) : Wf (World.fresh n) := by
  constructor
  · intro i _ p hp
    rw [World.pmap, World.lookup_fresh] at hp
    exact absurd hp (by simp [Node.fresh])
  · intro p _ i hi
    rw [World.cmap, World.lookup_fresh] at hi
    exact absurd hi (by simp [Node.fresh])
  · intro p _
    rw [World.cmap, World.lookup_fresh]
    exact List.nodup_nil
  · intro i _ k hk _ hc
    rcases Nat.exists_eq_add_of_le hk with ⟨m, rfl⟩
    rw [Nat.add_comm, World.anc_succ] at hc
    rcases hv : (World.fresh n).anc i m with _ | j
    · rw [hv] at hc; exact Option.noConfusion hc
    · rw [hv] at hc
      simp only [Option.bind_some, World.lookup_fresh] at hc
      exact Option.noConfusion hc

theorem wf_congr {s t : World} (hlen : t.nodes.length = s.nodes.length)
    (hpm : ∀ j, t.pmap j = s.pmap j) (hcm : ∀ j, t.cmap j = s.cmap j)
    (wf : Wf s) : Wf t := by
  constructor
  · intro i hi q hq
    rw [hlen] at hi
    rw [hpm i] at hq
    rcases wf.parentConsistent i hi q hq with ⟨h1, h2⟩
    rw [hlen, hcm q]
    exact ⟨h1, h2⟩
  · intro q hq i hi
    rw [hlen] at hq
    rw [hcm q] at hi
    rcases wf.childConsistent q hq i hi with ⟨h1, h2⟩
    rw [hlen, hpm i]
    exact ⟨h1, h2⟩
  · intro q hq
    rw [hlen] at hq
    rw [hcm q]
    exact wf.childNodup q hq
  · intro i hi k h1 h2
    rw [hlen] at hi h2
    rw [World.anc_congr hpm i k]
    exact wf.noCycle i hi k h1 h2

theorem anc_one (s : World) (i : Nat) : s.anc i 1 = s.pmap i := rfl

/-- A cycle through any of its members is a cycle based at that member. -/
theorem anc_cycle_shift {s : World} {i c k m : Nat} (hm : m ≤ k)
    (h1 : s.anc i m = some c) (h2 : s.anc i k = some i) : s.anc c k = some c := by
  have e0 := World.anc_add s i m (k - m)
  rw [Nat.add_sub_cancel' hm, h2, h1] at e0
  have e1 : s.anc c (k - m) = some i := e0.symm
  have e2 := World.anc_add s c (k - m) m
  rw [Nat.sub_add_cancel hm, e1] at e2
  exact e2.trans h1

/-- A parent chain starting at a parentless node never returns anywhere. -/
theorem anc_dead_of_parent_none {t : World} {c : Nat} (h0 : t.pmap c = none)
    {k : Nat} (hk : 1 ≤ k) : t.anc c k = none := by
  rcases Nat.exists_eq_add_of_le hk with ⟨m, rfl⟩
  rw [World.anc_add t c 1 m]
  have h1 : t.anc c 1 = none := h0
  rw [h1]
  rfl

/-- If a chain ever reaches `c`, its first arrival is reached by a prefix
avoiding `c`, hence survives in any world differing from this one only at
`c`'s parent pointer. -/
theorem anc_first_arrival {s t : World} {c i : Nat}
    (hpar : ∀ j, j ≠ c → t.pmap j = s.pmap j)
    {k : Nat} (hk : t.anc i k = some c) :
    ∃ m, m ≤ k ∧ s.anc i m = some c := by
  have hex : ∃ m, t.anc i m = some c := ⟨k, hk⟩
  have hspec : t.anc i (Nat.find hex) = some c := Nat.find_spec hex
  have hmin : ∀ m, m < Nat.find hex → t.anc i m ≠ some c :=
    fun m hm => Nat.find_min hex hm
  have hm0k : Nat.find hex ≤ k := Nat.find_min' hex hk
  have heq : t.anc i (Nat.find hex) = s.anc i (Nat.find hex) :=
    World.anc_congr_avoid hpar hmin
  exact ⟨Nat.find hex, hm0k, heq ▸ hspec⟩

theorem contains_eq_decide_mem (l : List Nat) (a : Nat) :
    l.contains a = decide (a ∈ l) := List.elem_eq_mem a l

/-- Effect of `detachChild` on the structural state, for `c ≠ p`: when the
child is a member, its parent pointer is cleared and it is spliced out of
the child list; otherwise the structure is untouched. -/
theorem detachChild_desc (s : World) (p c : Nat) (keep : Bool) (hcp : c ≠ p) :
    (s.detachChild p c keep).nodes.length = s.nodes.length ∧
    (∀ i, (s.detachChild p c keep).pmap i =
      if i = c ∧ c ∈ s.cmap p then none else s.pmap i) ∧
    (∀ i, (s.detachChild p c keep).cmap i =
      if i = p ∧ c ∈ s.cmap p then (s.cmap p).erase c else s.cmap i) := by
  set s1 := if keep then
      s.modifyNode c (fun n => { n with transform := Transform.copyOf n.worldTransform })
    else s with hs1def
  have hs1len : s1.nodes.length = s.nodes.length := by
    rw [hs1def]
    cases keep
    · rfl
    · rw [if_pos rfl]
      exact World.length_modifyNode s c _
  have hs1pm : ∀ i, s1.pmap i = s.pmap i := by
    intro i
    rw [hs1def]
    cases keep
    · rfl
    · rw [if_pos rfl]
      exact World.pmap_modifyTransform s c i _
  have hs1cm : ∀ i, s1.cmap i = s.cmap i := by
    intro i
    rw [hs1def]
    cases keep
    · rfl
    · rw [if_pos rfl]
      exact World.cmap_modifyTransform s c i _
  have hcont : (s1.lookup p).children.contains c = decide (c ∈ s.cmap p) := by
    rw [show (s1.lookup p).children = s.cmap p from hs1cm p]
    exact contains_eq_decide_mem _ c
  have hred : s.detachChild p c keep =
      if (s1.lookup p).children.contains c then
        (s1.modifyNode c fun n => { n with parent := none }).modifyNode p
          fun n => { n with children := n.children.erase c }
      else s1 := by
    unfold World.detachChild
    rw [if_neg hcp, ← hs1def]
  by_cases hm : c ∈ s.cmap p
  · rw [hred, hcont, decide_eq_true hm, if_pos rfl]
    set s2 := s1.modifyNode c fun n => { n with parent := none } with hs2def
    have hs2len : s2.nodes.length = s.nodes.length := by
      rw [hs2def, World.length_modifyNode]
      exact hs1len
    have hs2cm : ∀ i, s2.cmap i = s.cmap i := by
      intro i
      rw [hs2def, World.cmap_modifyParent]
      exact hs1cm i
    have hs2pm : ∀ i, i ≠ c → s2.pmap i = s.pmap i := by
      intro i hne
      rw [hs2def, World.pmap, World.lookup_modifyNode_ne hne]
      exact hs1pm i
    have hs2pmc : s2.pmap c = none := by
      rcases lt_or_le c s1.nodes.length with hlt | hge
      · rw [hs2def, World.pmap, World.lookup_modifyNode_self hlt]
      · rw [hs2def, World.modifyNode_oob hge, World.pmap]
        rw [World.lookup_oob hge]
        rfl
    have hplen : p < s.nodes.length := by
      by_contra hge
      rw [World.cmap, World.lookup_oob (Nat.le_of_not_lt hge)] at hm
      exact absurd hm (by simp [Node.fresh])
    refine ⟨?_, ?_, ?_⟩
    · rw [World.length_modifyNode]
      exact hs2len
    · intro i
      rw [World.pmap_modifyChildren]
      rcases eq_or_ne i c with rfl | hne
      · rw [if_pos ⟨rfl, hm⟩]
        exact hs2pmc
      · rw [if_neg (fun h => hne h.1)]
        exact hs2pm i hne
    · intro i
      rcases eq_or_ne i p with rfl | hne
      · rw [if_pos ⟨rfl, hm⟩]
        have hplt2 : i < s2.nodes.length := by rw [hs2len]; exact hplen
        rw [World.cmap, World.lookup_modifyNode_self hplt2]
        show (s2.lookup i).children.erase c = (s.cmap i).erase c
        rw [show (s2.lookup i).children = s.cmap i from hs2cm i]
      · rw [if_neg (fun h => hne h.1)]
        rw [World.cmap, World.lookup_modifyNode_ne hne]
        exact hs2cm i
  · rw [hred, hcont, decide_eq_false hm, if_neg (by simp)]
    refine ⟨hs1len, ?_, ?_⟩
    · intro i
      rw [if_neg (fun h => hm h.2)]
      exact hs1pm i
    · intro i
      rw [if_neg (fun h => hm h.2)]
      exact hs1cm i

/-- `detachChild` never touches any node's dirty or updated flag. -/
theorem fmap_detachChild (s : World) (p c : Nat) (keep : Bool) (i : Nat) :
    (s.detachChild p c keep).fmap i = s.fmap i := by
  unfold World.detachChild
  by_cases hcp : c = p
  · rw [if_pos hcp]
    rfl
  · rw [if_neg hcp]
    set s1 := if keep then
        s.modifyNode c (fun n => { n with transform := Transform.copyOf n.worldTransform })
      else s with hs1def
    have hs1fm : s1.fmap i = s.fmap i := by
      rw [hs1def]
      cases keep
      · rfl
      · rw [if_pos rfl]
        exact World.fmap_modifyTransform s c i _
    by_cases hcnt : (s1.lookup p).children.contains c = true
    · rw [if_pos hcnt]
      rw [World.fmap_modifyChildren, World.fmap_modifyParent]
      exact hs1fm
    · rw [if_neg hcnt]
      exact hs1fm


/-- `detachChild` preserves well-formedness of the scene graph. -/
theorem wf_detachChild {s : World} (wf : Wf s) (p c : Nat) (keep : Bool) :
    Wf (s.detachChild p c keep) := by
  by_cases hcp : c = p
  · have heq : s.detachChild p c keep = { s with warns := s.warns + 1 } := by
      unfold World.detachChild
      rw [if_pos hcp]
    rw [heq]
    exact @wf_congr s { s with warns := s.warns + 1 } rfl (fun _ => rfl) (fun _ => rfl) wf
  · obtain ⟨hlen, hpm, hcm⟩ := detachChild_desc s p c keep hcp
    by_cases hm : c ∈ s.cmap p
    · constructor
      · intro i hi q hq
        rw [hlen] at hi
        rw [hpm i] at hq
        by_cases hic : i = c ∧ c ∈ s.cmap p
        · rw [if_pos hic] at hq
          exact absurd hq (by simp)
        · rw [if_neg hic] at hq
          rcases wf.parentConsistent i hi q hq with ⟨hqN, hmem⟩
          refine ⟨by rw [hlen]; exact hqN, ?_⟩
          rw [hcm q]
          by_cases hqp : q = p ∧ c ∈ s.cmap p
          · rcases hqp with ⟨rfl, hmm⟩
            rw [if_pos ⟨rfl, hmm⟩]
            have hine : i ≠ c := by
              rintro rfl
              exact hic ⟨rfl, hmm⟩
            rw [(wf.childNodup q hqN).mem_erase_iff]
            exact ⟨hine, hmem⟩
          · rw [if_neg hqp]
            exact hmem
      · intro q hq i hi
        rw [hlen] at hq
        rw [hcm q] at hi
        by_cases hqp : q = p ∧ c ∈ s.cmap p
        · rcases hqp with ⟨rfl, hmm⟩
          rw [if_pos ⟨rfl, hmm⟩] at hi
          rw [(wf.childNodup q hq).mem_erase_iff] at hi
          rcases hi with ⟨hine, hmem⟩
          rcases wf.childConsistent q hq i hmem with ⟨hiN, hpar⟩
          refine ⟨by rw [hlen]; exact hiN, ?_⟩
          rw [hpm i, if_neg (fun h => hine h.1)]
          exact hpar
        · rw [if_neg hqp] at hi
          rcases wf.childConsistent q hq i hi with ⟨hiN, hpar⟩
          refine ⟨by rw [hlen]; exact hiN, ?_⟩
          rw [hpm i]
          by_cases hic : i = c ∧ c ∈ s.cmap p
          · rcases hic with ⟨rfl, hmm⟩
            have hpN : p < s.nodes.length := by
              by_contra hge
              rw [World.cmap, World.lookup_oob (Nat.le_of_not_lt hge)] at hmm
              exact absurd hmm (by simp [Node.fresh])
            have hqp2 : q = p :=
              Option.some.inj (hpar.symm.trans (wf.childConsistent p hpN i hmm).2)
            exact absurd ⟨hqp2, hmm⟩ hqp
          · rw [if_neg hic]
            exact hpar
      · intro q hq
        rw [hlen] at hq
        rw [hcm q]
        by_cases hqp : q = p ∧ c ∈ s.cmap p
        · rw [if_pos hqp]
          exact (List.erase_sublist c (s.cmap p)).nodup (wf.childNodup p (by
            rcases hqp with ⟨rfl, _⟩
            exact hq))
        · rw [if_neg hqp]
          exact wf.childNodup q hq
      · intro i hi k h1 h2
        rw [hlen] at hi h2
        intro hcy
        by_cases hex : ∃ m, m < k ∧ (s.detachChild p c keep).anc i m = some c
        · obtain ⟨m, hmk, hmc⟩ := hex
          have hcyc : (s.detachChild p c keep).anc c k = some c :=
            anc_cycle_shift (Nat.le_of_lt hmk) hmc hcy
          have hnone : (s.detachChild p c keep).pmap c = none := by
            rw [hpm c, if_pos ⟨rfl, hm⟩]
          rw [anc_dead_of_parent_none hnone h1] at hcyc
          exact Option.noConfusion hcyc
        · push_neg at hex
          have havoid : ∀ m, m < k → (s.detachChild p c keep).anc i m ≠ some c :=
            fun m hmk => hex m hmk
          have hpar2 : ∀ j, j ≠ c → (s.detachChild p c keep).pmap j = s.pmap j := by
            intro j hj
            rw [hpm j, if_neg (fun h => hj h.1)]
          rw [World.anc_congr_avoid hpar2 havoid] at hcy
          exact wf.noCycle i hi k h1 h2 hcy
    · have hpm2 : ∀ j, (s.detachChild p c keep).pmap j = s.pmap j := by
        intro j
        rw [hpm j, if_neg (fun h => hm h.2)]
      have hcm2 : ∀ j, (s.detachChild p c keep).cmap j = s.cmap j := by
        intro j
        rw [hcm j, if_neg (fun h => hm h.2)]
      exact wf_congr hlen hpm2 hcm2 wf

theorem fmap_attachPrep (s : World) (c i : Nat) :
    (s.attachPrep c).fmap i = s.fmap i := by
  unfold World.attachPrep
  rcases h : (s.lookup c).parent with _ | q
  · rfl
  · exact fmap_detachChild s q c false i

/-- After the re-parenting prologue of `attachChild`, the child is a
parentless node appearing in no child list, the rest of the parent map is
unchanged, and well-formedness is preserved. -/
theorem attachPrep_facts {s : World} (wf : Wf s) {c : Nat} (hc : c < s.nodes.length) :
    Wf (s.attachPrep c) ∧ (s.attachPrep c).nodes.length = s.nodes.length ∧
    (s.attachPrep c).pmap c = none ∧
    (∀ j, j ≠ c → (s.attachPrep c).pmap j = s.pmap j) ∧
    (∀ r, r < s.nodes.length → c ∉ (s.attachPrep c).cmap r) := by
  have hN1 : 1 ≤ s.nodes.length := Nat.one_le_iff_ne_zero.mpr (by
    intro h0
    rw [h0] at hc
    exact Nat.not_lt_zero c hc)
  unfold World.attachPrep
  rcases hpc : (s.lookup c).parent with _ | q
  · refine ⟨wf, rfl, hpc, fun j _ => rfl, ?_⟩
    intro r hr hin
    have := (wf.childConsistent r hr c hin).2
    rw [World.pmap, hpc] at this
    exact Option.noConfusion this
  · have hpcq : s.pmap c = some q := hpc
    have hqc : c ≠ q := by
      rintro rfl
      exact wf.noCycle c hc 1 (le_refl 1) hN1 ((anc_one s c).trans hpcq)
    rcases wf.parentConsistent c hc q hpcq with ⟨hqN, hmem⟩
    obtain ⟨hlen, hpm, hcm⟩ := detachChild_desc s q c false hqc
    refine ⟨wf_detachChild wf q c false, hlen, ?_, ?_, ?_⟩
    · rw [hpm c, if_pos ⟨rfl, hmem⟩]
    · intro j hj
      rw [hpm j, if_neg (fun h => hj h.1)]
    · intro r hr hin
      rw [hcm r] at hin
      by_cases hrq : r = q ∧ c ∈ s.cmap q
      · rcases hrq with ⟨rfl, hmm⟩
        rw [if_pos ⟨rfl, hmm⟩] at hin
        rw [(wf.childNodup r hqN).mem_erase_iff] at hin
        exact absurd rfl hin.1
      · rw [if_neg hrq] at hin
        have hqr : s.pmap c = some r := (wf.childConsistent r hr c hin).2
        have : q = r := Option.some.inj (hpcq.symm.trans hqr)
        exact hrq ⟨this.symm ▸ rfl, this ▸ hmem⟩


theorem fmap_modifyNode_ne {s : World} {i j : Nat} (h : i ≠ j) (f : Node → Node) :
    (s.modifyNode j f).fmap i = s.fmap i := by
  rw [World.fmap, World.lookup_modifyNode_ne h]
  rfl

theorem fmap_uwtOp_self {s : World} {j : Nat} (h : j < s.nodes.length) :
    (s.updateWorldTransformOp j).fmap j = (false, true) := by
  unfold World.updateWorldTransformOp
  rw [World.fmap, World.lookup_modifyNode_self h]

theorem length_detachChild_self {s : World} {q c : Nat} (hcq : c = q) (keep : Bool) :
    (s.detachChild q c keep).nodes.length = s.nodes.length := by
  unfold World.detachChild
  rw [if_pos hcq]

theorem length_attachPrep (s : World) (c : Nat) :
    (s.attachPrep c).nodes.length = s.nodes.length := by
  unfold World.attachPrep
  rcases h : (s.lookup c).parent with _ | q
  · rfl
  · show (s.detachChild q c false).nodes.length = s.nodes.length
    by_cases hcq : c = q
    · exact length_detachChild_self hcq false
    · exact (detachChild_desc s q c false hcq).1

theorem length_attachKeepStage (s : World) (p c : Nat) (keep : Bool) :
    (s.attachKeepStage p c keep).nodes.length = s.nodes.length := by
  unfold World.attachKeepStage
  cases keep
  · exact length_attachPrep s c
  · rw [if_pos rfl]
    simp only [World.length_modifyNode, World.length_updateWorldTransformOp,
      World.length_updateTransformOp]
    exact length_attachPrep s c

theorem pmap_attachKeepStage (s : World) (p c : Nat) (keep : Bool) (j : Nat) :
    (s.attachKeepStage p c keep).pmap j = (s.attachPrep c).pmap j := by
  unfold World.attachKeepStage
  cases keep
  · rfl
  · rw [if_pos rfl]
    simp only [World.pmap_modifyTransform, World.pmap_updateWorldTransformOp,
      World.pmap_updateTransformOp]

theorem cmap_attachKeepStage (s : World) (p c : Nat) (keep : Bool) (j : Nat) :
    (s.attachKeepStage p c keep).cmap j = (s.attachPrep c).cmap j := by
  unfold World.attachKeepStage
  cases keep
  · rfl
  · rw [if_pos rfl]
    simp only [World.cmap_modifyTransform, World.cmap_updateWorldTransformOp,
      World.cmap_updateTransformOp]

theorem fmap_uwtOp_ne {s : World} {i j : Nat} (h : i ≠ j) :
    (s.updateWorldTransformOp j).fmap i = s.fmap i := by
  unfold World.updateWorldTransformOp
  exact fmap_modifyNode_ne h _

theorem fmap_attachKeepStage_ne (s : World) (p c : Nat) (keep : Bool) {j : Nat}
    (hj : j ≠ p) : (s.attachKeepStage p c keep).fmap j = (s.attachPrep c).fmap j := by
  unfold World.attachKeepStage
  cases keep
  · rfl
  · rw [if_pos rfl]
    simp only [World.fmap_modifyTransform]
    rw [fmap_uwtOp_ne hj]
    simp only [World.fmap_updateTransformOp]

theorem fmap_attachKeepStage_self (s : World) (p c : Nat) (hp : p < s.nodes.length) :
    (s.attachKeepStage p c true).fmap p = (false, true) := by
  unfold World.attachKeepStage
  rw [if_pos rfl]
  simp only [World.fmap_modifyTransform]
  apply fmap_uwtOp_self
  simp only [World.length_updateTransformOp, length_attachPrep]
  exact hp

/-- Structural reduction of `attachChild` when the cycle guard passes. -/
theorem attachChild_red (s : World) (p c : Nat) (keep : Bool)
    (hg : s.guardB p c = false) :
    s.attachChild p c keep =
      ((s.attachKeepStage p c keep).modifyNode c
          fun n => { n with parent := some p }).modifyNode p
        fun n => { n with children := n.children ++ [c] } := by
  unfold World.attachChild
  rw [if_neg (by simp [hg])]


/-- Main structural facts about a successful `attachChild`: the final
parent map and child lists, plus preservation of well-formedness. -/
theorem attachChild_main {s : World} (wf : Wf s) {p c : Nat}
    (hp : p < s.nodes.length) (hc : c < s.nodes.length)
    (hg : s.guardB p c = false) (keep : Bool) :
    Wf (s.attachChild p c keep) ∧
    (s.attachChild p c keep).nodes.length = s.nodes.length ∧
    (s.attachChild p c keep).pmap c = some p ∧
    (∀ j, j ≠ c → (s.attachChild p c keep).pmap j = (s.attachPrep c).pmap j) ∧
    (s.attachChild p c keep).cmap p = (s.attachPrep c).cmap p ++ [c] ∧
    (∀ j, j ≠ p → (s.attachChild p c keep).cmap j = (s.attachPrep c).cmap j) := by
  have hgf := (World.guardB_false_iff s p c).mp hg
  have hcp : c ≠ p := fun h => hgf 0 (Nat.zero_le _) (by subst h; rfl)
  obtain ⟨wf1, hlen1, hpm1c, hpm1, hnm1⟩ := attachPrep_facts wf hc
  have hred := attachChild_red s p c keep hg
  have hlenS2 := length_attachKeepStage s p c keep
  have hlenS3 : ((s.attachKeepStage p c keep).modifyNode c
      fun n => { n with parent := some p }).nodes.length = s.nodes.length := by
    rw [World.length_modifyNode, hlenS2]
  have hlent : (s.attachChild p c keep).nodes.length = s.nodes.length := by
    rw [hred, World.length_modifyNode, hlenS3]
  have hpmt : ∀ j, (s.attachChild p c keep).pmap j =
      if j = c then some p else (s.attachPrep c).pmap j := by
    intro j
    rw [hred, World.pmap_modifyChildren]
    rcases eq_or_ne j c with rfl | hne
    · rw [if_pos rfl, World.pmap,
        World.lookup_modifyNode_self (by rw [hlenS2]; exact hc)]
    · rw [if_neg hne, World.pmap, World.lookup_modifyNode_ne hne]
      exact pmap_attachKeepStage s p c keep j
  have hpmtc : (s.attachChild p c keep).pmap c = some p := by
    rw [hpmt c, if_pos rfl]
  have hcmt_p : (s.attachChild p c keep).cmap p = (s.attachPrep c).cmap p ++ [c] := by
    rw [hred, World.cmap, World.lookup_modifyNode_self (by rw [hlenS3]; exact hp)]
    show ((((s.attachKeepStage p c keep).modifyNode c
      fun n => { n with parent := some p }).lookup p).children) ++ [c] =
        (s.attachPrep c).cmap p ++ [c]
    rw [show (((s.attachKeepStage p c keep).modifyNode c
        fun n => { n with parent := some p }).lookup p).children =
          (s.attachPrep c).cmap p from by
      have h1 := World.cmap_modifyParent (s.attachKeepStage p c keep) c p (some p)
      rw [World.cmap, World.cmap] at h1
      rw [h1]
      have h2 := cmap_attachKeepStage s p c keep p
      rw [World.cmap, World.cmap] at h2
      exact h2]
  have hcmt_ne : ∀ j, j ≠ p → (s.attachChild p c keep).cmap j = (s.attachPrep c).cmap j := by
    intro j hne
    rw [hred, World.cmap, World.lookup_modifyNode_ne hne]
    have h1 := World.cmap_modifyParent (s.attachKeepStage p c keep) c j (some p)
    rw [World.cmap, World.cmap] at h1
    rw [h1]
    have h2 := cmap_attachKeepStage s p c keep j
    rw [World.cmap, World.cmap] at h2
    exact h2
  have hguard1 : ∀ m, m ≤ s.nodes.length → (s.attachPrep c).anc p m ≠ some c := by
    intro m hm hmc
    obtain ⟨m0, hm0le, hm0⟩ := anc_first_arrival hpm1 hmc
    exact hgf m0 (le_trans hm0le hm) hm0
  refine ⟨?_, hlent, hpmtc, fun j hj => by rw [hpmt j, if_neg hj],
    hcmt_p, hcmt_ne⟩
  constructor
  · intro i hi q hq
    rw [hlent] at hi
    rw [hpmt i] at hq
    rcases eq_or_ne i c with rfl | hne
    · rw [if_pos rfl] at hq
      cases hq
      refine ⟨by rw [hlent]; exact hp, ?_⟩
      rw [hcmt_p]
      exact List.mem_append.mpr (Or.inr (List.mem_singleton.mpr rfl))
    · rw [if_neg hne] at hq
      rcases wf1.parentConsistent i (by rw [hlen1]; exact hi) q hq with ⟨hqN, hmem⟩
      rw [hlen1] at hqN
      refine ⟨by rw [hlent]; exact hqN, ?_⟩
      rcases eq_or_ne q p with rfl | hqp
      · rw [hcmt_p]
        exact List.mem_append.mpr (Or.inl hmem)
      · rw [hcmt_ne q hqp]
        exact hmem
  · intro q hq i hi
    rw [hlent] at hq
    rcases eq_or_ne q p with rfl | hqp
    · rw [hcmt_p] at hi
      rcases List.mem_append.mp hi with hil | hir
      · rcases wf1.childConsistent q (by rw [hlen1]; exact hq) i hil with ⟨hiN, hpar⟩
        rw [hlen1] at hiN
        have hine : i ≠ c := by
          rintro rfl
          exact hnm1 q hq hil
        refine ⟨by rw [hlent]; exact hiN, ?_⟩
        rw [hpmt i, if_neg hine]
        exact hpar
      · rw [List.mem_singleton.mp hir]
        exact ⟨by rw [hlent]; exact hc, hpmtc⟩
    · rw [hcmt_ne q hqp] at hi
      rcases wf1.childConsistent q (by rw [hlen1]; exact hq) i hi with ⟨hiN, hpar⟩
      rw [hlen1] at hiN
      have hine : i ≠ c := by
        rintro rfl
        exact hnm1 q hq hi
      refine ⟨by rw [hlent]; exact hiN, ?_⟩
      rw [hpmt i, if_neg hine]
      exact hpar
  · intro q hq
    rw [hlent] at hq
    rcases eq_or_ne q p with rfl | hqp
    · rw [hcmt_p]
      have hnd1 : ((s.attachPrep c).cmap q).Nodup :=
        wf1.childNodup q (by rw [hlen1]; exact hq)
      have hdisj : ∀ x ∈ (s.attachPrep c).cmap q, x ∉ ([c] : List Nat) := by
        intro x hx hxc
        rw [List.mem_singleton.mp hxc] at hx
        exact hnm1 q hq hx
      exact List.Nodup.append hnd1 (List.nodup_singleton c) fun x hx hxc => hdisj x hx hxc
    · rw [hcmt_ne q hqp]
      exact wf1.childNodup q (by rw [hlen1]; exact hq)
  · intro i hi k h1 h2
    rw [hlent] at hi h2
    intro hcy
    have hparEq : ∀ j, j ≠ c → (s.attachChild p c keep).pmap j = (s.attachPrep c).pmap j :=
      fun j hj => by rw [hpmt j, if_neg hj]
    by_cases hex : ∃ m, m < k ∧ (s.attachChild p c keep).anc i m = some c
    · obtain ⟨m, hmk, hmc⟩ := hex
      have hcyc : (s.attachChild p c keep).anc c k = some c :=
        anc_cycle_shift (Nat.le_of_lt hmk) hmc hcy
      have h1t : (s.attachChild p c keep).anc c 1 = some p := by
        rw [anc_one]
        exact hpmtc
      have hstep : (s.attachChild p c keep).anc p (k - 1) = some c := by
        have hadd := World.anc_add (s.attachChild p c keep) c 1 (k - 1)
        rw [Nat.add_sub_cancel' h1, h1t] at hadd
        rw [hadd] at hcyc
        exact hcyc
      obtain ⟨m0, hm0le, hm0⟩ := anc_first_arrival hparEq hstep
      exact hguard1 m0 (le_trans hm0le (le_trans (Nat.sub_le k 1) h2)) hm0
    · push_neg at hex
      rw [World.anc_congr_avoid hparEq fun m hmk => hex m hmk] at hcy
      exact wf1.noCycle i (by rw [hlen1]; exact hi) k h1 (by rw [hlen1]; exact h2) hcy


theorem wf_attachChild {s : World} (wf : Wf s) {p c : Nat}
    (hp : p < s.nodes.length) (hc : c < s.nodes.length) (keep : Bool) :
    Wf (s.attachChild p c keep) := by
  by_cases hg : s.guardB p c = true
  · have heq : s.attachChild p c keep = { s with warns := s.warns + 1 } := by
      unfold World.attachChild
      rw [if_pos hg]
    rw [heq]
    exact @wf_congr s { s with warns := s.warns + 1 } rfl (fun _ => rfl) (fun _ => rfl) wf
  · exact (attachChild_main wf hp hc (Bool.not_eq_true _ ▸ eq_false_of_ne_true hg) keep).1

theorem length_attachChild (s : World) (p c : Nat) (keep : Bool) :
    (s.attachChild p c keep).nodes.length = s.nodes.length := by
  by_cases hg : s.guardB p c = true
  · unfold World.attachChild
    rw [if_pos hg]
  · rw [attachChild_red s p c keep (eq_false_of_ne_true hg)]
    rw [World.length_modifyNode, World.length_modifyNode]
    exact length_attachKeepStage s p c keep

theorem length_detachChild (s : World) (p c : Nat) (keep : Bool) :
    (s.detachChild p c keep).nodes.length = s.nodes.length := by
  by_cases hcp : c = p
  · exact length_detachChild_self hcp keep
  · exact (detachChild_desc s p c keep hcp).1

theorem wf_step {s : World} (wf : Wf s) (o : Op) : Wf (s.step o) := by
  cases o with
  | attach p c keep =>
    unfold World.step
    dsimp only
    by_cases hv : p < s.nodes.length ∧ c < s.nodes.length
    · rw [if_pos hv]
      exact wf_attachChild wf hv.1 hv.2 keep
    · rw [if_neg hv]
      exact wf
  | detach p c keep =>
    unfold World.step
    dsimp only
    by_cases hv : p < s.nodes.length ∧ c < s.nodes.length
    · rw [if_pos hv]
      exact wf_detachChild wf p c keep
    · rw [if_neg hv]
      exact wf

theorem length_step (s : World) (o : Op) : (s.step o).nodes.length = s.nodes.length := by
  cases o with
  | attach p c keep =>
    unfold World.step
    dsimp only
    by_cases hv : p < s.nodes.length ∧ c < s.nodes.length
    · rw [if_pos hv]
      exact length_attachChild s p c keep
    · rw [if_neg hv]
  | detach p c keep =>
    unfold World.step
    dsimp only
    by_cases hv : p < s.nodes.length ∧ c < s.nodes.length
    · rw [if_pos hv]
      exact length_detachChild s p c keep
    · rw [if_neg hv]

theorem wf_run {s : World} (wf : Wf s) (ops : List Op) : Wf (s.run ops) := by
  induction ops generalizing s with
  | nil => exact wf
  | cons o rest ih => exact ih (wf_step wf o)

theorem length_run (s : World) (ops : List Op) :
    (s.run ops).nodes.length = s.nodes.length := by
  induction ops generalizing s with
  | nil => rfl
  | cons o rest ih =>
    show ((s.step o).run rest).nodes.length = s.nodes.length
    rw [ih (s.step o), length_step]


/-- C2: after any finite sequence of attach/detach operations starting from
freshly constructed nodes, every node has either no parent and no
occurrence in any child list, or exactly one parent `p` with exactly one
occurrence in `p`'s child list and in no other list (the two cases are
mutually exclusive); moreover a successful attach appends the child at the
tail of the parent's child list (insertion order). -/
theorem tree_consistency_after_run (n : Nat) (ops : List Op) :
    (∀ i, i < n →
      Xor'
        (((World.fresh n).run ops).pmap i = none ∧
          ∀ q, q < n → i ∉ ((World.fresh n).run ops).cmap q)
        (∃ p, p < n ∧ ((World.fresh n).run ops).pmap i = some p ∧
          (((World.fresh n).run ops).cmap p).count i = 1 ∧
          ∀ q, q < n → q ≠ p → i ∉ ((World.fresh n).run ops).cmap q)) ∧
    (∀ p c keep, p < n → c < n →
      ((World.fresh n).run ops).guardB p c = false →
      ∃ l, (((World.fresh n).run ops).attachChild p c keep).cmap p = l ++ [c] ∧
        c ∉ l) := by
  have wf : Wf ((World.fresh n).run ops) := wf_run (wf_fresh n) ops
  have hlen : ((World.fresh n).run ops).nodes.length = n := by
    rw [length_run, World.length_fresh]
  constructor
  · intro i hi
    rcases hpar : ((World.fresh n).run ops).pmap i with _ | p
    · refine Or.inl ⟨⟨rfl, ?_⟩, ?_⟩
      · intro q hq hin
        have := (wf.childConsistent q (by rw [hlen]; exact hq) i hin).2
        rw [hpar] at this
        exact Option.noConfusion this
      · rintro ⟨p, _, hsome, _⟩
        exact Option.noConfusion hsome
    · rcases wf.parentConsistent i (by rw [hlen]; exact hi) p hpar with ⟨hpN, hmem⟩
      refine Or.inr ⟨⟨p, by rw [← hlen]; exact hpN, rfl, ?_, ?_⟩, ?_⟩
      · exact List.count_eq_one_of_mem (wf.childNodup p hpN) hmem
      · intro q hq hqp hin
        have := (wf.childConsistent q (by rw [hlen]; exact hq) i hin).2
        rw [hpar] at this
        exact hqp (Option.some.inj this).symm
      · rintro ⟨hnone, _⟩
        exact Option.noConfusion hnone
  · intro p c keep hp hc hg
    have main := attachChild_main wf (by rw [hlen]; exact hp) (by rw [hlen]; exact hc)
      hg keep
    obtain ⟨_, _, _, _, hnm1⟩ := attachPrep_facts wf (by rw [hlen]; exact hc)
    exact ⟨(((World.fresh n).run ops).attachPrep c).cmap p, main.2.2.2.2.1,
      hnm1 p (by rw [hlen]; exact hp)⟩

/-- Witness for C2 at a concrete run: two fresh nodes, one attach. -/
theorem tree_consistency_after_run_witness :
    (Xor'
      ((((World.fresh 2).run [Op.attach 0 1 false]).pmap 1 = none ∧
        ∀ q, q < 2 → 1 ∉ ((World.fresh 2).run [Op.attach 0 1 false]).cmap q))
      (∃ p, p < 2 ∧ ((World.fresh 2).run [Op.attach 0 1 false]).pmap 1 = some p ∧
        ((((World.fresh 2).run [Op.attach 0 1 false]).cmap p).count 1 = 1) ∧
        ∀ q, q < 2 → q ≠ p → 1 ∉ ((World.fresh 2).run [Op.attach 0 1 false]).cmap q)) ∧
    (∃ l, ((((World.fresh 2).run [Op.attach 0 1 false]).attachChild 0 1 true).cmap 0
        = l ++ [1]) ∧ 1 ∉ l) :=
  ⟨(tree_consistency_after_run 2 [Op.attach 0 1 false]).1 1 (by decide),
   (tree_consistency_after_run 2 [Op.attach 0 1 false]).2 0 1 true (by decide)
     (by decide) (by decide)⟩

/-- C4: `attachChild` rejects, with a diagnostic warning and no other state
change, any candidate child that is `this` itself or an ancestor of `this`
(the cycle guard, lines 458–465); `detachChild` likewise rejects
self-detachment (lines 489–492).  Both are total Lean functions, so
neither can throw or abort. -/
theorem attach_cycle_detach_self_guards (s : World) (p c : Nat) (keep : Bool) :
    ((∃ k, k ≤ s.nodes.length ∧ s.anc p k = some c) →
      s.attachChild p c keep = { s with warns := s.warns + 1 }) ∧
    s.detachChild p p keep = { s with warns := s.warns + 1 } := by
  constructor
  · intro hanc
    unfold World.attachChild
    rw [if_pos ((World.guardB_iff s p c).mpr hanc)]
  · unfold World.detachChild
    rw [if_pos rfl]

/-- Witness for C4: self-attach and self-detach on a fresh pair. -/
theorem attach_cycle_detach_self_guards_witness :
    (World.fresh 2).attachChild 0 0 true
        = { World.fresh 2 with warns := (World.fresh 2).warns + 1 } ∧
      (World.fresh 2).detachChild 1 1 false
        = { World.fresh 2 with warns := (World.fresh 2).warns + 1 } :=
  ⟨(attach_cycle_detach_self_guards (World.fresh 2) 0 0 true).1
      ⟨0, by decide, by decide⟩,
    (attach_cycle_detach_self_guards (World.fresh 2) 1 1 false).2⟩

/-- Counterexample to C5 as stated: node 0 is an ancestor of node 2 (two
levels up), yet `attachChild` called on node 0 with child 2 re-parents
node 2 from node 1 to node 0 — the tree structure changes.  Only the
reverse direction (attaching an ancestor under a descendant) is guarded. -/
theorem attach_to_ancestor_changes_tree :
    chainWorld.anc 2 2 = some 0 ∧
    chainWorld.pmap 2 = some 1 ∧
    (chainWorld.attachChild 0 2 false).pmap 2 = some 0 ∧
    (chainWorld.attachChild 0 2 false).cmap 1 = [] ∧
    chainWorld.cmap 1 = [2] := by decide

/-- C5 amended: attaching any node of N's own ancestor chain (N itself
included) as a child of N leaves the tree structurally unchanged — this is
the direction the cycle guard actually rejects. -/
theorem attach_of_ancestor_is_noop (s : World) (nd a : Nat) (keep : Bool)
    (h : ∃ k, k ≤ s.nodes.length ∧ s.anc nd k = some a) :
    (s.attachChild nd a keep).nodes = s.nodes := by
  unfold World.attachChild
  rw [if_pos ((World.guardB_iff s nd a).mpr h)]

/-- Witness for amended C5: attaching the root of the chain under the leaf
changes no node. -/
theorem attach_of_ancestor_is_noop_witness :
    (chainWorld.attachChild 2 0 true).nodes = chainWorld.nodes :=
  attach_of_ancestor_is_noop chainWorld 2 0 true ⟨2, by decide, by decide⟩

/-- Counterexample to C6 as stated: detaching a non-member with
`keepTransform = true` is not a complete no-op — the candidate child's
local transform is overwritten with its last-known world transform before
the membership test (line 495 precedes line 498). -/
theorem detach_nonmember_keepTransform_overwrites_local :
    (1 : Nat) ∉ looseWorld.cmap 0 ∧
    (looseWorld.lookup 1).transform.translation = ⟨1, 0, 0⟩ ∧
    ((looseWorld.detachChild 0 1 true).lookup 1).transform.translation = ⟨0, 0, 0⟩ := by
  decide

/-- C6 amended: for `c` neither `this` nor a member of `this`'s child
list, `detachChild` changes no structure and reports nothing; with
`keepTransform = false` it is a complete no-op, while with
`keepTransform = true` it still overwrites `c`'s local transform with
`c`'s last-known world transform (and changes nothing else). -/
theorem detach_nonmember_noop (s : World) (p c : Nat) (keep : Bool)
    (hcp : c ≠ p) (hnm : c ∉ s.cmap p) :
    s.detachChild p c false = s ∧
    s.detachChild p c true =
      s.modifyNode c (fun n => { n with transform := Transform.copyOf n.worldTransform }) ∧
    (s.detachChild p c keep).warns = s.warns := by
  have hcont : ∀ t : World, t.cmap p = s.cmap p →
      (t.lookup p).children.contains c = false := by
    intro t ht
    rw [show (t.lookup p).children = s.cmap p from ht, contains_eq_decide_mem]
    exact decide_eq_false hnm
  have hfalse : s.detachChild p c false = s := by
    unfold World.detachChild
    rw [if_neg hcp]
    show (if (s.lookup p).children.contains c = true then _ else s) = s
    rw [hcont s rfl]
    simp
  have htrue : s.detachChild p c true =
      s.modifyNode c (fun n => { n with transform := Transform.copyOf n.worldTransform }) := by
    unfold World.detachChild
    rw [if_neg hcp]
    show (if ((s.modifyNode c (fun n =>
      { n with transform := Transform.copyOf n.worldTransform })).lookup p).children.contains c
        = true then _ else _) = _
    rw [hcont _ (World.cmap_modifyTransform s c p _)]
    simp
  refine ⟨hfalse, htrue, ?_⟩
  cases keep
  · rw [hfalse]
  · rw [htrue]
    simp [World.modifyNode]

/-- Witness for amended C6 on the concrete two-node world. -/
theorem detach_nonmember_noop_witness :
    looseWorld.detachChild 0 1 false = looseWorld ∧
    looseWorld.detachChild 0 1 true =
      looseWorld.modifyNode 1
        (fun n => { n with transform := Transform.copyOf n.worldTransform }) ∧
    (looseWorld.detachChild 0 1 true).warns = looseWorld.warns := by
  have h := detach_nonmember_noop looseWorld 0 1 true (by decide) (by decide)
  exact ⟨h.1, h.2.1, h.2.2⟩

/-- Counterexample to C10 as stated: `attachChild` with `keepTransform`
calls `this.updateWorldTransform()` (line 473), which clears `this`'s
dirty flag and sets its updated flag — so `attachChild` does modify a
node's flags. -/
theorem attach_keepTransform_clears_parent_dirty :
    ((World.fresh 2).lookup 0).dirty = true ∧
    ((World.fresh 2).lookup 0).updated = false ∧
    (((World.fresh 2).attachChild 0 1 true).lookup 0).dirty = false ∧
    (((World.fresh 2).attachChild 0 1 true).lookup 0).updated = true := by decide

/-- C10 amended: `detachChild` never touches any node's dirty/updated
flags; `attachChild` with `keepTransform = false` never touches them
either; with `keepTransform = true` every node except the new parent keeps
its flags (in particular the child, whose local transform is rewritten, is
not marked dirty), while the parent's dirty flag is cleared and its
updated flag set by the embedded `updateWorldTransform` call. -/
theorem attach_detach_flag_effects (s : World) (p c : Nat) (keep : Bool) :
    (∀ i, (s.detachChild p c keep).fmap i = s.fmap i) ∧
    (∀ i, (s.attachChild p c false).fmap i = s.fmap i) ∧
    (s.guardB p c = false → p < s.nodes.length →
      (∀ i, i ≠ p → (s.attachChild p c true).fmap i = s.fmap i) ∧
      (s.attachChild p c true).fmap p = (false, true)) := by
  refine ⟨fmap_detachChild s p c keep, ?_, ?_⟩
  · intro i
    by_cases hg : s.guardB p c = true
    · have heq : s.attachChild p c false = { s with warns := s.warns + 1 } := by
        unfold World.attachChild
        rw [if_pos hg]
      rw [heq]
      rfl
    · rw [attachChild_red s p c false (eq_false_of_ne_true hg)]
      rw [World.fmap_modifyChildren, World.fmap_modifyParent]
      rw [show s.attachKeepStage p c false = s.attachPrep c from rfl]
      exact fmap_attachPrep s c i
  · intro hg hp
    constructor
    · intro i hip
      rw [attachChild_red s p c true hg]
      rw [World.fmap_modifyChildren, World.fmap_modifyParent]
      rw [fmap_attachKeepStage_ne s p c true hip]
      exact fmap_attachPrep s c i
    · rw [attachChild_red s p c true hg]
      rw [World.fmap_modifyChildren, World.fmap_modifyParent]
      exact fmap_attachKeepStage_self s p c hp

/-- Witness for amended C10 on a fresh pair (the parent starts dirty and
not updated; the keep-attach flips exactly its flags). -/
theorem attach_detach_flag_effects_witness :
    (((World.fresh 2).detachChild 0 1 true).fmap 1 = (World.fresh 2).fmap 1) ∧
    (((World.fresh 2).attachChild 0 1 false).fmap 0 = (World.fresh 2).fmap 0) ∧
    (((World.fresh 2).attachChild 0 1 true).fmap 1 = (World.fresh 2).fmap 1) ∧
    ((World.fresh 2).attachChild 0 1 true).fmap 0 = (false, true) := by
  have h := attach_detach_flag_effects (World.fresh 2) 0 1 true
  have h3 := h.2.2 (by decide) (by decide)
  exact ⟨h.1 1, h.2.1 0, h3.1 1 (by decide), h3.2⟩


theorem setNormal_translation (w : Transform) :
    (setNormal w).translation = w.translation := by
  unfold setNormal
  split <;> rfl

theorem setNormal_rotation (w : Transform) : (setNormal w).rotation = w.rotation := by
  unfold setNormal
  split <;> rfl

theorem setNormal_scale (w : Transform) : (setNormal w).scale = w.scale := by
  unfold setNormal
  split <;> rfl

theorem setNormal_matrix (w : Transform) : (setNormal w).matrix = w.matrix := by
  unfold setNormal
  split <;> rfl

theorem setNormal_normal_nonuniform {w : Transform}
    (h : w.scale.x ≠ w.scale.y ∨ w.scale.x ≠ w.scale.z) :
    (setNormal w).normalMatrix = (Mat4.invert w.matrix).transpose := by
  unfold setNormal
  rw [if_pos h]

theorem setNormal_normal_uniform {w : Transform}
    (h : ¬(w.scale.x ≠ w.scale.y ∨ w.scale.x ≠ w.scale.z)) :
    (setNormal w).normalMatrix = w.matrix := by
  unfold setNormal
  rw [if_neg h]

theorem setNormal_congr {w1 w2 : Transform} (ht : w1.translation = w2.translation)
    (hr : w1.rotation = w2.rotation) (hs : w1.scale = w2.scale)
    (hm : w1.matrix = w2.matrix) : setNormal w1 = setNormal w2 := by
  cases w1
  cases w2
  cases ht
  cases hr
  cases hs
  cases hm
  unfold setNormal
  split <;> rfl

theorem applyUWT_old_irrel (pw : Option Transform) (l old1 old2 : Transform) :
    applyUWT pw l old1 = applyUWT pw l old2 := by
  cases pw with
  | none => rfl
  | some w =>
    show setNormal (Transform.multiplyInto old1 w l)
      = setNormal (Transform.multiplyInto old2 w l)
    exact setNormal_congr rfl rfl rfl rfl

theorem uwtOp_world_eq {s : World} {i : Nat} (hi : i < s.nodes.length) :
    ((s.updateWorldTransformOp i).lookup i).worldTransform =
      applyUWT ((s.lookup i).parent.map fun p => (s.lookup p).worldTransform)
        (s.lookup i).transform (s.lookup i).worldTransform := by
  unfold World.updateWorldTransformOp
  rw [World.lookup_modifyNode_self hi]

theorem uwtOp_flags {s : World} {i : Nat} (hi : i < s.nodes.length) :
    ((s.updateWorldTransformOp i).lookup i).dirty = false ∧
      ((s.updateWorldTransformOp i).lookup i).updated = true := by
  unfold World.updateWorldTransformOp
  rw [World.lookup_modifyNode_self hi]
  exact ⟨rfl, rfl⟩

theorem uwtOp_keeps_transform {s : World} {i : Nat} (j : Nat) :
    ((s.updateWorldTransformOp i).lookup j).transform = (s.lookup j).transform := by
  rcases lt_or_le i s.nodes.length with hlt | hge
  · unfold World.updateWorldTransformOp
    rcases eq_or_ne j i with rfl | hne
    · rw [World.lookup_modifyNode_self hlt]
    · rw [World.lookup_modifyNode_ne hne]
  · unfold World.updateWorldTransformOp
    rw [World.modifyNode_oob hge]

theorem uwtOp_keeps_parent {s : World} {i : Nat} (j : Nat) :
    ((s.updateWorldTransformOp i).lookup j).parent = (s.lookup j).parent := by
  rcases lt_or_le i s.nodes.length with hlt | hge
  · unfold World.updateWorldTransformOp
    rcases eq_or_ne j i with rfl | hne
    · rw [World.lookup_modifyNode_self hlt]
    · rw [World.lookup_modifyNode_ne hne]
  · unfold World.updateWorldTransformOp
    rw [World.modifyNode_oob hge]

/-- C3: `updateWorldTransform` computes the world transform as
`multiply(parent's stored world transform, local transform)` when a parent
exists (matrix = matrix product, rotation = rotation product, scale =
componentwise product, translation = the product matrix's translation
column) and as a copy of the local transform otherwise; it then sets the
normal matrix to `transpose(invert(world matrix))` when the world scale is
non-uniform (`x ≠ y` or `x ≠ z`) and to an exact copy of the world matrix
when the scale is uniform (`x = y = z`). -/
theorem updateWorldTransform_compose_and_normal (s : World) (i : Nat)
    (hi : i < s.nodes.length) (w : Transform)
    (hw : w = ((s.updateWorldTransformOp i).lookup i).worldTransform) :
    (∀ p, (s.lookup i).parent = some p →
      w.matrix = ((s.lookup p).worldTransform.matrix).mul (s.lookup i).transform.matrix ∧
      w.rotation =
        ((s.lookup p).worldTransform.rotation).mul (s.lookup i).transform.rotation ∧
      w.scale = ((s.lookup p).worldTransform.scale).hadamard (s.lookup i).transform.scale ∧
      w.translation = Mat4.colTrans
        (((s.lookup p).worldTransform.matrix).mul (s.lookup i).transform.matrix)) ∧
    ((s.lookup i).parent = none →
      w.translation = (s.lookup i).transform.translation ∧
      w.rotation = (s.lookup i).transform.rotation ∧
      w.scale = (s.lookup i).transform.scale ∧
      w.matrix = (s.lookup i).transform.matrix) ∧
    ((w.scale.x ≠ w.scale.y ∨ w.scale.x ≠ w.scale.z) →
      w.normalMatrix = (Mat4.invert w.matrix).transpose) ∧
    (w.scale.x = w.scale.y ∧ w.scale.x = w.scale.z → w.normalMatrix = w.matrix) := by
  rw [uwtOp_world_eq hi] at hw
  rcases hpar : (s.lookup i).parent with _ | p
  · rw [hpar] at hw
    have hw2 : w = setNormal (s.lookup i).transform := hw
    refine ⟨?_, ?_, ?_, ?_⟩
    · intro p hp
      exact Option.noConfusion hp
    · intro _
      rw [hw2]
      exact ⟨setNormal_translation _, setNormal_rotation _, setNormal_scale _,
        setNormal_matrix _⟩
    · intro hcond
      rw [hw2] at hcond ⊢
      rw [setNormal_scale] at hcond
      rw [setNormal_matrix, setNormal_normal_nonuniform hcond]
    · intro hcond
      rw [hw2] at hcond ⊢
      rw [setNormal_scale] at hcond
      rw [setNormal_matrix, setNormal_normal_uniform (by
        push_neg
        exact ⟨hcond.1, hcond.2⟩)]
  · rw [hpar] at hw
    have hw2 : w = setNormal (Transform.multiplyInto (s.lookup i).worldTransform
      ((s.lookup p).worldTransform) (s.lookup i).transform) := hw
    refine ⟨?_, ?_, ?_, ?_⟩
    · intro q hq
      cases hq
      rw [hw2]
      rw [setNormal_matrix, setNormal_rotation, setNormal_scale, setNormal_translation]
      exact ⟨rfl, rfl, rfl, rfl⟩
    · intro hnone
      exact Option.noConfusion hnone
    · intro hcond
      rw [hw2] at hcond ⊢
      rw [setNormal_scale] at hcond
      rw [setNormal_matrix, setNormal_normal_nonuniform hcond]
    · intro hcond
      rw [hw2] at hcond ⊢
      rw [setNormal_scale] at hcond
      rw [setNormal_matrix, setNormal_normal_uniform (by
        push_neg
        exact ⟨hcond.1, hcond.2⟩)]

/-- Witness for C3 on the chain world (node 1 has a parent). -/
theorem updateWorldTransform_compose_and_normal_witness :
    ((chainWorld.updateWorldTransformOp 1).lookup 1).worldTransform.matrix =
        ((chainWorld.lookup 0).worldTransform.matrix).mul
          (chainWorld.lookup 1).transform.matrix ∧
      ((chainWorld.updateWorldTransformOp 0).lookup 0).worldTransform.normalMatrix =
        ((chainWorld.updateWorldTransformOp 0).lookup 0).worldTransform.matrix :=
  have h1 := updateWorldTransform_compose_and_normal chainWorld 1 (by decide) _ rfl
  have h0 := updateWorldTransform_compose_and_normal chainWorld 0 (by decide) _ rfl
  ⟨(h1.1 0 (by decide)).1, h0.2.2.2 (by decide)⟩

/-- C9: calling `updateWorldTransform` twice in a row on the same node,
with nothing else happening in between, produces the same world transform
(normal matrix included) both times, provided the node is not its own
parent (the tree invariant).  The second call reads the same stored parent
world transform and the same local transform as the first. -/
theorem updateWorldTransform_idempotent (s : World) (i : Nat)
    (hi : i < s.nodes.length) (hself : (s.lookup i).parent ≠ some i) :
    (((s.updateWorldTransformOp i).updateWorldTransformOp i).lookup i).worldTransform
      = ((s.updateWorldTransformOp i).lookup i).worldTransform := by
  have hlen1 : (s.updateWorldTransformOp i).nodes.length = s.nodes.length :=
    World.length_updateWorldTransformOp s i
  rw [uwtOp_world_eq (by rw [hlen1]; exact hi)]
  rw [uwtOp_keeps_transform i, uwtOp_keeps_parent i]
  rw [uwtOp_world_eq hi]
  rcases hpar : (s.lookup i).parent with _ | p
  · exact applyUWT_old_irrel none _ _ _
  · have hpi : p ≠ i := by
      rintro rfl
      exact hself hpar
    have hlp : ((s.updateWorldTransformOp i).lookup p).worldTransform
        = (s.lookup p).worldTransform := by
      unfold World.updateWorldTransformOp
      rw [World.lookup_modifyNode_ne hpi]
    have hmap : ((some p).map fun q =>
        ((s.updateWorldTransformOp i).lookup q).worldTransform)
          = ((some p).map fun q => (s.lookup q).worldTransform) := by
      show some (((s.updateWorldTransformOp i).lookup p).worldTransform)
        = some ((s.lookup p).worldTransform)
      rw [hlp]
    rw [hmap]
    exact applyUWT_old_irrel _ _ _ _

/-- Witness for C9 on the chain world. -/
theorem updateWorldTransform_idempotent_witness :
    (((chainWorld.updateWorldTransformOp 2).updateWorldTransformOp 2).lookup 2).worldTransform
      = ((chainWorld.updateWorldTransformOp 2).lookup 2).worldTransform :=
  updateWorldTransform_idempotent chainWorld 2 (by decide) (by decide)


/-- C8: every mutator (`setTranslation`, `setRotation`, `setScale`,
`lookAt`, `addTranslation`, `addRotation`), for every accepted argument
shape (three scalars, a 3-vector, or an array of 3 — all covered by
`SetArg`/`LookAtArg`), sets the owner's dirty flag; and
`updateWorldTransform` always clears the dirty flag and sets the updated
flag (the per-node Clean → Dirty → Clean state machine). -/
theorem mutators_dirty_updateWorld_flags (m : RotModel) (s : World) (i : Nat)
    (hi : i < s.nodes.length) (a : SetArg) (la : LookAtArg) :
    ((s.setTranslationOp i a).lookup i).dirty = true ∧
    ((s.setScaleOp i a).lookup i).dirty = true ∧
    ((s.addTranslationOp i a).lookup i).dirty = true ∧
    ((s.setRotationOp m i a).lookup i).dirty = true ∧
    ((s.addRotationOp m i a).lookup i).dirty = true ∧
    ((s.lookAtOp m i la).lookup i).dirty = true ∧
    ((s.setTranslationOp i a).lookup i).transform.translation = a.toVec ∧
    ((s.setScaleOp i a).lookup i).transform.scale = a.toVec ∧
    ((s.addTranslationOp i a).lookup i).transform.translation
      = (s.lookup i).transform.translation.add a.toVec ∧
    ((s.updateWorldTransformOp i).lookup i).dirty = false ∧
    ((s.updateWorldTransformOp i).lookup i).updated = true := by
  refine ⟨?_, ?_, ?_, ?_, ?_, ?_, ?_, ?_, ?_, ?_, ?_⟩
  · unfold World.setTranslationOp
    rw [World.lookup_modifyNode_self hi]
  · unfold World.setScaleOp
    rw [World.lookup_modifyNode_self hi]
  · unfold World.addTranslationOp
    rw [World.lookup_modifyNode_self hi]
  · unfold World.setRotationOp
    rw [World.lookup_modifyNode_self hi]
  · unfold World.addRotationOp
    rw [World.lookup_modifyNode_self hi]
  · unfold World.lookAtOp
    rw [World.lookup_modifyNode_self hi]
  · unfold World.setTranslationOp
    rw [World.lookup_modifyNode_self hi]
  · unfold World.setScaleOp
    rw [World.lookup_modifyNode_self hi]
  · unfold World.addTranslationOp
    rw [World.lookup_modifyNode_self hi]
  · exact (uwtOp_flags hi).1
  · exact (uwtOp_flags hi).2

/-- Witness for C8 with a trivial orientation model and each argument
shape exercised on a fresh node. -/
theorem mutators_dirty_updateWorld_flags_witness :
    (((World.fresh 1).setTranslationOp 0 (SetArg.scalars 1 2 3)).lookup 0).dirty = true ∧
    (((World.fresh 1).setScaleOp 0 (SetArg.vec ⟨2, 2, 2⟩)).lookup 0).dirty = true ∧
    (((World.fresh 1).addTranslationOp 0 (SetArg.arr 1 0 0)).lookup 0).dirty = true ∧
    (((World.fresh 1).setRotationOp
        ⟨fun _ _ _ => Mat3.id, fun _ => Vec3.zero, fun _ _ => Mat3.id⟩ 0
        (SetArg.scalars 0 0 0)).lookup 0).dirty = true ∧
    (((World.fresh 1).addRotationOp
        ⟨fun _ _ _ => Mat3.id, fun _ => Vec3.zero, fun _ _ => Mat3.id⟩ 0
        (SetArg.vec ⟨0, 0, 0⟩)).lookup 0).dirty = true ∧
    (((World.fresh 1).lookAtOp
        ⟨fun _ _ _ => Mat3.id, fun _ => Vec3.zero, fun _ _ => Mat3.id⟩ 0
        (LookAtArg.scalars 0 0 1)).lookup 0).dirty = true ∧
    (((World.fresh 1).updateWorldTransformOp 0).lookup 0).dirty = false ∧
    (((World.fresh 1).updateWorldTransformOp 0).lookup 0).updated = true := by
  have h1 := mutators_dirty_updateWorld_flags
    ⟨fun _ _ _ => Mat3.id, fun _ => Vec3.zero, fun _ _ => Mat3.id⟩
    (World.fresh 1) 0 (by decide) (SetArg.scalars 1 2 3) (LookAtArg.scalars 0 0 1)
  have h2 := mutators_dirty_updateWorld_flags
    ⟨fun _ _ _ => Mat3.id, fun _ => Vec3.zero, fun _ _ => Mat3.id⟩
    (World.fresh 1) 0 (by decide) (SetArg.vec ⟨2, 2, 2⟩) (LookAtArg.scalars 0 0 1)
  have h3 := mutators_dirty_updateWorld_flags
    ⟨fun _ _ _ => Mat3.id, fun _ => Vec3.zero, fun _ _ => Mat3.id⟩
    (World.fresh 1) 0 (by decide) (SetArg.arr 1 0 0) (LookAtArg.scalars 0 0 1)
  have h4 := mutators_dirty_updateWorld_flags
    ⟨fun _ _ _ => Mat3.id, fun _ => Vec3.zero, fun _ _ => Mat3.id⟩
    (World.fresh 1) 0 (by decide) (SetArg.vec ⟨0, 0, 0⟩) (LookAtArg.scalars 0 0 1)
  exact ⟨h1.1, h2.2.1, h3.2.2.1, h1.2.2.2.1, h4.2.2.2.2.1, h1.2.2.2.2.2.1,
    h1.2.2.2.2.2.2.2.2.2.1, h1.2.2.2.2.2.2.2.2.2.2⟩


theorem update_eq_self {t : Transform}
    (h : t.matrix = Mat4.trs t.translation t.rotation t.scale) :
    t.update = t := by
  cases t
  unfold Transform.update
  congr 1
  exact h.symm

theorem setNormal_eq_self {w : Transform}
    (h : w.normalMatrix = (setNormal w).normalMatrix) : setNormal w = w := by
  by_cases hcond : w.scale.x ≠ w.scale.y ∨ w.scale.x ≠ w.scale.z
  · rw [setNormal_normal_nonuniform hcond] at h
    cases w
    unfold setNormal
    rw [if_pos hcond]
    congr 1
    exact h.symm
  · rw [setNormal_normal_uniform hcond] at h
    cases w
    unfold setNormal
    rw [if_neg hcond]
    congr 1
    exact h.symm

theorem worldAfter_succ (s : World) (f i : Nat) :
    s.worldAfter (f + 1) i =
      match (s.lookup i).parent with
      | none => applyUWT none (s.lookup i).transform.update (s.lookup i).worldTransform
      | some p => applyUWT (some (s.worldAfter f p)) (s.lookup i).transform.update
          (s.lookup i).worldTransform := rfl

theorem worldAfter_root {s : World} {i : Nat} (f : Nat)
    (h : (s.lookup i).parent = none) :
    s.worldAfter (f + 1) i =
      applyUWT none (s.lookup i).transform.update (s.lookup i).worldTransform := by
  rw [worldAfter_succ, h]

theorem worldAfter_child {s : World} {i p : Nat} (f : Nat)
    (h : (s.lookup i).parent = some p) :
    s.worldAfter (f + 1) i =
      applyUWT (some (s.worldAfter f p)) (s.lookup i).transform.update
        (s.lookup i).worldTransform := by
  rw [worldAfter_succ, h]

/-- With `keepTransform = true` and `c ≠ p`, `detachChild` overwrites `c`'s
local transform with its last-known world transform (and keeps `c`'s world
transform), whatever the membership outcome. -/
theorem detachChild_keep_copies_world {s : World} {p c : Nat} (hcp : c ≠ p)
    (hc : c < s.nodes.length) :
    ((s.detachChild p c true).lookup c).transform = (s.lookup c).worldTransform ∧
    ((s.detachChild p c true).lookup c).worldTransform = (s.lookup c).worldTransform := by
  have hred : s.detachChild p c true =
      (if ((s.modifyNode c fun n =>
            { n with transform := Transform.copyOf n.worldTransform }).lookup p).children.contains c then
        ((s.modifyNode c fun n =>
            { n with transform := Transform.copyOf n.worldTransform }).modifyNode c
          fun n => { n with parent := none }).modifyNode p
          fun n => { n with children := n.children.erase c }
      else
        s.modifyNode c fun n =>
          { n with transform := Transform.copyOf n.worldTransform }) := by
    unfold World.detachChild
    rw [if_neg hcp]
    rfl
  have hbase : ((s.modifyNode c fun n =>
      { n with transform := Transform.copyOf n.worldTransform }).lookup c).transform
        = (s.lookup c).worldTransform ∧
      ((s.modifyNode c fun n =>
        { n with transform := Transform.copyOf n.worldTransform }).lookup c).worldTransform
        = (s.lookup c).worldTransform := by
    rw [World.lookup_modifyNode_self hc]
    exact ⟨rfl, rfl⟩
  rw [hred]
  by_cases hcnt : ((s.modifyNode c fun n =>
      { n with transform := Transform.copyOf n.worldTransform }).lookup p).children.contains c = true
  · rw [if_pos hcnt]
    have hc1 : c < (s.modifyNode c fun n =>
        { n with transform := Transform.copyOf n.worldTransform }).nodes.length := by
      rw [World.length_modifyNode]
      exact hc
    rw [World.lookup_modifyNode_ne hcp, World.lookup_modifyNode_self hc1]
    exact hbase
  · rw [if_neg hcnt]
    exact hbase

/-- C7: for a child `c` of `p`, `detachChild(c, keepTransform = true)`
overwrites `c`'s local transform with `c`'s last-known world transform and
clears `c`'s parent pointer, so that after a following propagation pass
`c` has no parent and its world transform is unchanged.  The two
hypotheses are the spec's own data-model invariants for a settled world
transform: its cached matrix recomposes from translation/rotation/scale,
and its normal matrix is the one the normal-matrix branch computes. -/
theorem detach_keepTransform_preserves_world (s : World) (p c : Nat)
    (hc : c < s.nodes.length) (hcp : c ≠ p) (hmem : c ∈ s.cmap p)
    (hrec : (s.lookup c).worldTransform.matrix =
      Mat4.trs (s.lookup c).worldTransform.translation
        (s.lookup c).worldTransform.rotation (s.lookup c).worldTransform.scale)
    (hnorm : (s.lookup c).worldTransform.normalMatrix
      = (setNormal (s.lookup c).worldTransform).normalMatrix) :
    ((s.detachChild p c true).lookup c).transform = (s.lookup c).worldTransform ∧
    (((s.detachChild p c true).propagate).lookup c).parent = none ∧
    (((s.detachChild p c true).propagate).lookup c).worldTransform
      = (s.lookup c).worldTransform := by
  obtain ⟨hlocal, hworld⟩ := detachChild_keep_copies_world hcp hc
  obtain ⟨hlen, hpm, _⟩ := detachChild_desc s p c true hcp
  have hc2 : c < (s.detachChild p c true).nodes.length := by
    rw [hlen]
    exact hc
  have hparnone : ((s.detachChild p c true).lookup c).parent = none := by
    have := hpm c
    rw [if_pos ⟨rfl, hmem⟩] at this
    exact this
  have hprop := World.lookup_propagate hc2
  obtain ⟨m, hm⟩ : ∃ m, (s.detachChild p c true).nodes.length = m + 1 :=
    ⟨(s.detachChild p c true).nodes.length - 1,
      (Nat.succ_pred_eq_of_pos (Nat.zero_lt_of_lt hc2)).symm⟩
  have hWA : (s.detachChild p c true).worldAfter
      ((s.detachChild p c true).nodes.length) c = (s.lookup c).worldTransform := by
    rw [hm, worldAfter_root m hparnone, hlocal]
    show setNormal (Transform.copyOf ((s.lookup c).worldTransform.update))
      = (s.lookup c).worldTransform
    rw [show Transform.copyOf ((s.lookup c).worldTransform.update)
      = (s.lookup c).worldTransform.update from rfl]
    rw [update_eq_self hrec]
    exact setNormal_eq_self hnorm
  refine ⟨hlocal, ?_, ?_⟩
  · rw [hprop]
    exact hparnone
  · rw [hprop]
    exact hWA


set_option maxHeartbeats 1600000 in
/-- Core algebra of the amended C1: with the new parent's world transform
built from a local transform with uniform non-zero scale and invertible
rotation, re-expressing the child's (updated) local transform in the
parent's frame and composing back — after the propagation pass has
recomposed the child's local matrix from its stored fields — reproduces
the child's original updated local transform exactly. -/
theorem keep_attach_algebra (TP TC old : Transform) {k : ℚ}
    (hscale : TP.scale = Vec3.uniform k) (hk : k ≠ 0)
    (hdet : TP.rotation.det ≠ 0) :
    setNormal (Transform.multiplyInto old (setNormal TP.update)
      ((Transform.multiplyInto TC.update
        (Transform.invert (setNormal TP.update)) TC.update).update))
      = setNormal TC.update := by
  obtain ⟨pt, pR, ps, pm, pn⟩ := TP
  obtain ⟨ct, cR, cs, cm, cn⟩ := TC
  simp only at hscale
  subst hscale
  simp only at hdet
  have hL : (pR.mul (Mat3.diag (Vec3.uniform k))).mul
      (((Mat3.inv pR).mul cR).mul
        (Mat3.diag ((Vec3.cinv (Vec3.uniform k)).hadamard cs)))
      = cR.mul (Mat3.diag cs) := by
    rw [Vec3.cinv_uniform, Vec3.hadamard_uniform, Mat3.diag_smul, Mat3.diag_uniform]
    rw [Mat3.mul_smul3 k pR Mat3.id, Mat3.mul_id3]
    rw [Mat3.mul_smul3 k⁻¹ ((Mat3.inv pR).mul cR) (Mat3.diag cs)]
    rw [Mat3.smul_mul3, Mat3.mul_smul3, Mat3.smul_smul3, mul_inv_cancel₀ hk,
      Mat3.one_smul3]
    rw [← Mat3.mul_assoc3 pR ((Mat3.inv pR).mul cR) (Mat3.diag cs)]
    rw [← Mat3.mul_assoc3 pR (Mat3.inv pR) cR]
    rw [Mat3.mul_inv_self hdet, Mat3.id_mul3]
  have hT : pt.add ((pR.mul (Mat3.diag (Vec3.uniform k))).mulVec
      ((Vec3.neg ((Vec3.cinv (Vec3.uniform k)).hadamard ((Mat3.inv pR).mulVec pt))).add
        (((Mat3.inv pR).mul (Mat3.diag (Vec3.cinv (Vec3.uniform k)))).mulVec ct)))
      = ct := by
    rw [Vec3.cinv_uniform, Vec3.hadamard_uniform, Mat3.diag_uniform k]
    rw [Mat3.mul_smul3 k pR Mat3.id, Mat3.mul_id3]
    rw [Mat3.diag_uniform k⁻¹]
    rw [Mat3.mul_smul3 k⁻¹ (Mat3.inv pR) Mat3.id, Mat3.mul_id3]
    rw [Mat3.smul_mulVec, Mat3.smul_mulVec]
    rw [Mat3.mulVec_add, Mat3.mulVec_neg, Mat3.mulVec_smul, Mat3.mulVec_smul]
    rw [Mat3.mulVec_mulVec pR (Mat3.inv pR) pt, Mat3.mulVec_mulVec pR (Mat3.inv pR) ct]
    rw [Mat3.mul_inv_self hdet, Mat3.id_mulVec, Mat3.id_mulVec]
    rw [Vec3.smul_add, Vec3.smul_neg, Vec3.smul_smul, Vec3.smul_smul,
      mul_inv_cancel₀ hk, Vec3.one_smul, Vec3.one_smul]
    exact Vec3.add_neg_cancel_left pt ct
  apply setNormal_congr
  · show Mat4.colTrans ((setNormal
        (Transform.update ⟨pt, pR, Vec3.uniform k, pm, pn⟩)).matrix.mul
      ((Transform.multiplyInto (Transform.update ⟨ct, cR, cs, cm, cn⟩)
        (Transform.invert (setNormal (Transform.update ⟨pt, pR, Vec3.uniform k, pm, pn⟩)))
        (Transform.update ⟨ct, cR, cs, cm, cn⟩)).update).matrix) = ct
    simp only [Transform.multiplyInto, Transform.update, Transform.invert,
      setNormal_matrix, setNormal_rotation, setNormal_scale, setNormal_translation]
    simp only [Mat4.trs, Mat4.affine_mul_affine, Mat4.colTrans_affine]
    exact hT
  · show (setNormal (Transform.update ⟨pt, pR, Vec3.uniform k, pm, pn⟩)).rotation.mul
      ((Transform.multiplyInto (Transform.update ⟨ct, cR, cs, cm, cn⟩)
        (Transform.invert (setNormal (Transform.update ⟨pt, pR, Vec3.uniform k, pm, pn⟩)))
        (Transform.update ⟨ct, cR, cs, cm, cn⟩)).update).rotation = cR
    simp only [Transform.multiplyInto, Transform.update, Transform.invert,
      setNormal_rotation]
    rw [← Mat3.mul_assoc3, Mat3.mul_inv_self hdet, Mat3.id_mul3]
  · show (setNormal (Transform.update ⟨pt, pR, Vec3.uniform k, pm, pn⟩)).scale.hadamard
      ((Transform.multiplyInto (Transform.update ⟨ct, cR, cs, cm, cn⟩)
        (Transform.invert (setNormal (Transform.update ⟨pt, pR, Vec3.uniform k, pm, pn⟩)))
        (Transform.update ⟨ct, cR, cs, cm, cn⟩)).update).scale = cs
    simp only [Transform.multiplyInto, Transform.update, Transform.invert,
      setNormal_scale]
    rw [Vec3.cinv_uniform, Vec3.hadamard_uniform, Vec3.hadamard_uniform,
      Vec3.smul_smul, mul_inv_cancel₀ hk, Vec3.one_smul]
  · show (setNormal
        (Transform.update ⟨pt, pR, Vec3.uniform k, pm, pn⟩)).matrix.mul
      ((Transform.multiplyInto (Transform.update ⟨ct, cR, cs, cm, cn⟩)
        (Transform.invert (setNormal (Transform.update ⟨pt, pR, Vec3.uniform k, pm, pn⟩)))
        (Transform.update ⟨ct, cR, cs, cm, cn⟩)).update).matrix
      = Mat4.trs ct cR cs
    simp only [Transform.multiplyInto, Transform.update, Transform.invert,
      setNormal_matrix, setNormal_rotation, setNormal_scale, setNormal_translation]
    simp only [Mat4.trs, Mat4.affine_mul_affine, Mat4.colTrans_affine]
    rw [hL, hT]


theorem update_idem (t : Transform) : t.update.update = t.update := rfl

/-- C1 amended: if `c` is a parentless node whose stored world transform is
exactly what a propagation pass would produce from its local transform,
and `p` is a parentless node whose local transform has uniform non-zero
scale and invertible rotation, then `attachChild(c, keepTransform = true)`
followed by a full propagation pass reproduces `c`'s pre-attach world
transform exactly. -/
theorem attach_keepTransform_world_preserved_for_roots (s : World) (p c : Nat)
    (hp : p < s.nodes.length) (hc : c < s.nodes.length) (hcp : c ≠ p)
    (hrootp : (s.lookup p).parent = none) (hrootc : (s.lookup c).parent = none)
    (k : ℚ) (hk : k ≠ 0)
    (hscale : (s.lookup p).transform.scale = Vec3.uniform k)
    (hdet : ((s.lookup p).transform.rotation).det ≠ 0)
    (hsettled : (s.lookup c).worldTransform
      = setNormal ((s.lookup c).transform.update)) :
    (((s.attachChild p c true).propagate).lookup c).worldTransform
      = (s.lookup c).worldTransform := by
  have hg : s.guardB p c = false := by
    rw [World.guardB_false_iff]
    intro k2 hk2 hco
    cases k2 with
    | zero => exact hcp (Option.some.inj hco).symm
    | succ m =>
      rw [anc_dead_of_parent_none (show s.pmap p = none from hrootp)
        (Nat.succ_le_succ (Nat.zero_le m))] at hco
      exact Option.noConfusion hco
  have hprep : s.attachPrep c = s := by
    unfold World.attachPrep
    rw [hrootc]
  have hred := attachChild_red s p c true hg
  set A := s.updateTransformOp c with hA
  set B := A.updateTransformOp p with hB
  set Cw := B.updateWorldTransformOp p with hCw
  have hpA : p < A.nodes.length := by
    rw [hA, World.length_updateTransformOp]
    exact hp
  have hpB : p < B.nodes.length := by
    rw [hB, World.length_updateTransformOp]
    exact hpA
  have hcA : c < A.nodes.length := by
    rw [hA, World.length_updateTransformOp]
    exact hc
  have hcCw : c < Cw.nodes.length := by
    rw [hCw, World.length_updateWorldTransformOp, hB, World.length_updateTransformOp]
    exact hcA
  have hstage : s.attachKeepStage p c true =
      Cw.modifyNode c fun n =>
        { n with transform := (Transform.multiplyInto n.transform
            (Transform.invert (Cw.lookup p).worldTransform) n.transform) } := by
    unfold World.attachKeepStage
    rw [hprep]
    rfl
  have hAc : A.lookup c = { s.lookup c with transform := (s.lookup c).transform.update } := by
    rw [hA]
    unfold World.updateTransformOp
    rw [World.lookup_modifyNode_self hc]
  have hAp : A.lookup p = s.lookup p := by
    rw [hA]
    unfold World.updateTransformOp
    rw [World.lookup_modifyNode_ne (Ne.symm hcp)]
  have hBc : B.lookup c = A.lookup c := by
    rw [hB]
    unfold World.updateTransformOp
    rw [World.lookup_modifyNode_ne hcp]
  have hBp_par : (B.lookup p).parent = none := by
    rw [hB]
    unfold World.updateTransformOp
    rw [World.lookup_modifyNode_self hpA]
    show (A.lookup p).parent = none
    rw [hAp]
    exact hrootp
  have hBp_tr : (B.lookup p).transform = (s.lookup p).transform.update := by
    rw [hB]
    unfold World.updateTransformOp
    rw [World.lookup_modifyNode_self hpA]
    show (A.lookup p).transform.update = (s.lookup p).transform.update
    rw [hAp]
  have hCp_world : (Cw.lookup p).worldTransform
      = setNormal ((s.lookup p).transform.update) := by
    rw [hCw, uwtOp_world_eq hpB, hBp_par, hBp_tr]
    rfl
  have hCp_par : (Cw.lookup p).parent = none := by
    rw [hCw, uwtOp_keeps_parent p]
    exact hBp_par
  have hCp_tr : (Cw.lookup p).transform = (s.lookup p).transform.update := by
    rw [hCw, uwtOp_keeps_transform p]
    exact hBp_tr
  have hCc_tr : (Cw.lookup c).transform = (s.lookup c).transform.update := by
    rw [hCw, uwtOp_keeps_transform c, hBc, hAc]
  have hS2c_tr : ((s.attachKeepStage p c true).lookup c).transform
      = Transform.multiplyInto ((s.lookup c).transform.update)
          (Transform.invert (setNormal ((s.lookup p).transform.update)))
          ((s.lookup c).transform.update) := by
    rw [hstage, World.lookup_modifyNode_self hcCw]
    show Transform.multiplyInto (Cw.lookup c).transform
        (Transform.invert (Cw.lookup p).worldTransform) (Cw.lookup c).transform
      = _
    rw [hCc_tr, hCp_world]
  have hS2p_par : ((s.attachKeepStage p c true).lookup p).parent = none := by
    rw [hstage, World.lookup_modifyNode_ne (Ne.symm hcp)]
    exact hCp_par
  have hS2p_tr : ((s.attachKeepStage p c true).lookup p).transform
      = (s.lookup p).transform.update := by
    rw [hstage, World.lookup_modifyNode_ne (Ne.symm hcp)]
    exact hCp_tr
  have hlenS2 : (s.attachKeepStage p c true).nodes.length = s.nodes.length :=
    length_attachKeepStage s p c true
  have hcS2 : c < (s.attachKeepStage p c true).nodes.length := by
    rw [hlenS2]
    exact hc
  have hpS3 : p < ((s.attachKeepStage p c true).modifyNode c fun n =>
      { n with parent := some p }).nodes.length := by
    rw [World.length_modifyNode, hlenS2]
    exact hp
  have htc_par : ((s.attachChild p c true).lookup c).parent = some p := by
    rw [hred, World.lookup_modifyNode_ne hcp, World.lookup_modifyNode_self hcS2]
  have htc_tr : ((s.attachChild p c true).lookup c).transform
      = Transform.multiplyInto ((s.lookup c).transform.update)
          (Transform.invert (setNormal ((s.lookup p).transform.update)))
          ((s.lookup c).transform.update) := by
    rw [hred, World.lookup_modifyNode_ne hcp, World.lookup_modifyNode_self hcS2]
    show ((s.attachKeepStage p c true).lookup c).transform = _
    exact hS2c_tr
  have htp_par : ((s.attachChild p c true).lookup p).parent = none := by
    rw [hred, World.lookup_modifyNode_self hpS3]
    show (((s.attachKeepStage p c true).modifyNode c fun n =>
      { n with parent := some p }).lookup p).parent = none
    rw [World.lookup_modifyNode_ne (Ne.symm hcp)]
    exact hS2p_par
  have htp_tr : ((s.attachChild p c true).lookup p).transform
      = (s.lookup p).transform.update := by
    rw [hred, World.lookup_modifyNode_self hpS3]
    show (((s.attachKeepStage p c true).modifyNode c fun n =>
      { n with parent := some p }).lookup p).transform = _
    rw [World.lookup_modifyNode_ne (Ne.symm hcp)]
    exact hS2p_tr
  have hlent : (s.attachChild p c true).nodes.length = s.nodes.length :=
    length_attachChild s p c true
  have hct : c < (s.attachChild p c true).nodes.length := by
    rw [hlent]
    exact hc
  obtain ⟨m, hm⟩ : ∃ m, (s.attachChild p c true).nodes.length = m + 2 := by
    refine ⟨s.nodes.length - 2, ?_⟩
    rw [hlent]
    omega
  have hWAp : (s.attachChild p c true).worldAfter (m + 1) p
      = setNormal ((s.lookup p).transform.update) := by
    rw [worldAfter_root m htp_par, htp_tr, update_idem]
    rfl
  have hWAc : (s.attachChild p c true).worldAfter (m + 2) c
      = setNormal ((s.lookup c).transform.update) := by
    rw [worldAfter_child (m + 1) htc_par, hWAp, htc_tr]
    exact keep_attach_algebra ((s.lookup p).transform) ((s.lookup c).transform)
      (((s.attachChild p c true).lookup c).worldTransform) hscale hk hdet
  have hprop := World.lookup_propagate hct
  rw [hprop]
  show (s.attachChild p c true).worldAfter (s.attachChild p c true).nodes.length c
    = (s.lookup c).worldTransform
  rw [hm, hWAc]
  exact hsettled.symm


/-- C7 witness: in the settled parent/child pair, `detachChild(0, 1, true)`
copies node 1's settled world transform into its local transform, clears
its parent, and a propagation pass leaves its world transform unchanged. -/
theorem detach_keepTransform_preserves_world_witness :
    ((settledChainWorld.detachChild 0 1 true).lookup 1).transform
        = (settledChainWorld.lookup 1).worldTransform ∧
      (((settledChainWorld.detachChild 0 1 true).propagate).lookup 1).parent = none ∧
      (((settledChainWorld.detachChild 0 1 true).propagate).lookup 1).worldTransform
        = (settledChainWorld.lookup 1).worldTransform :=
  detach_keepTransform_preserves_world settledChainWorld 0 1 (by decide) (by decide)
    (by decide) rfl rfl

/-- C1 witness: with two settled parentless identity nodes,
`attachChild(0, 1, keepTransform = true)` followed by a propagation pass
reproduces node 1's pre-attach world transform. -/
theorem attach_keepTransform_world_preserved_for_roots_witness :
    (((pairWorld.attachChild 0 1 true).propagate).lookup 1).worldTransform
      = (pairWorld.lookup 1).worldTransform :=
  attach_keepTransform_world_preserved_for_roots pairWorld 0 1 (by decide) (by decide)
    (by decide) rfl rfl 1 one_ne_zero rfl
    (by
      show Mat3.id.det ≠ 0
      simp [Mat3.det, Mat3.id])
    rfl

/-- C1 counterexample: in the settled three-node scene `cexWorld`
(`Q := 0` a translated root, `C := 1` its child with identity local
transform, `P := 2` a settled identity root), the candidate child `C` is
neither `P` nor an ancestor of `P` (the guard passes), `C`'s pre-attach
world pose is the unit translation along x, yet
`P.attachChild(C, keepTransform = true)` followed by a propagation pass
moves `C` to the origin: the recomputed local transform is built from
`C`'s local transform (line 474), not from `C`'s old world transform as
the claim states, so the world pose is not preserved. -/
theorem attach_keepTransform_changes_world :
    cexWorld.guardB 2 1 = false ∧
    (cexWorld.lookup 1).worldTransform.translation = ⟨1, 0, 0⟩ ∧
    ((((cexWorld.attachChild 2 1 true).propagate).lookup 1).worldTransform).translation
      = ⟨0, 0, 0⟩ ∧
    (⟨1, 0, 0⟩ : Vec3) ≠ ⟨0, 0, 0⟩ := by
  refine ⟨by decide, rfl, ?_, by decide⟩
  have h1 : ((cexWorld.attachChild 2 1 true).lookup 1).parent = some 2 := by decide
  have h2 : ((cexWorld.attachChild 2 1 true).lookup 2).parent = none := by decide
  have hlen : 1 < (cexWorld.attachChild 2 1 true).nodes.length := by decide
  have hl2 : ((cexWorld.attachChild 2 1 true).lookup 2).transform
      = Transform.identity.update := rfl
  have hw2 : ((cexWorld.attachChild 2 1 true).lookup 2).worldTransform
      = setNormal (Transform.identity.update) := rfl
  have hl1 : ((cexWorld.attachChild 2 1 true).lookup 1).transform
      = Transform.multiplyInto (Transform.identity.update)
          (Transform.invert (setNormal (Transform.identity.update)))
          (Transform.identity.update) := rfl
  have hw1 : ((cexWorld.attachChild 2 1 true).lookup 1).worldTransform
      = settledTxWorld := rfl
  have hW2 : (cexWorld.attachChild 2 1 true).worldAfter 2 2
      = applyUWT none ((cexWorld.attachChild 2 1 true).lookup 2).transform.update
          ((cexWorld.attachChild 2 1 true).lookup 2).worldTransform := by
    show (cexWorld.attachChild 2 1 true).worldAfter (1 + 1) 2 = _
    rw [worldAfter_root 1 h2]
  have hW1 : (cexWorld.attachChild 2 1 true).worldAfter 3 1
      = applyUWT (some ((cexWorld.attachChild 2 1 true).worldAfter 2 2))
          ((cexWorld.attachChild 2 1 true).lookup 1).transform.update
          ((cexWorld.attachChild 2 1 true).lookup 1).worldTransform := by
    show (cexWorld.attachChild 2 1 true).worldAfter (2 + 1) 1 = _
    rw [worldAfter_child 2 h1]
  have hprop := World.lookup_propagate hlen
  rw [hprop]
  show ((cexWorld.attachChild 2 1 true).worldAfter
      (cexWorld.attachChild 2 1 true).nodes.length 1).translation = ⟨0, 0, 0⟩
  rw [show (cexWorld.attachChild 2 1 true).nodes.length = 3 from rfl, hW1, hW2,
    hl1, hl2, hw1, hw2]
  simp [applyUWT, setNormal, Transform.multiplyInto, Transform.update,
    Transform.invert, Transform.identity, Transform.copyOf, Mat4.trs,
    Mat4.affineOf, Mat4.mul, Mat4.colTrans, Mat3.mul, Mat3.diag, Mat3.id,
    Mat3.inv, Mat3.adj, Mat3.det, Mat3.smul, Mat3.mulVec, Vec3.one, Vec3.zero,
    Vec3.cinv, Vec3.hadamard, Vec3.neg, Vec3.smul, settledTxWorld]

end Goo
